import Mathlib

/-!
Verification development for the `ollama-agent-cli` repository.

The TypeScript source operates on dynamic JavaScript values (parsed JSON,
streamed response deltas, tool-call records).  We shallowly embed those
values as the inductive type `JVal` below, JavaScript objects being
association lists in insertion order (the integer-key reordering JavaScript
performs on object keys is not modelled; no definition or theorem here uses
integer-like keys).  JSON numbers are represented by their source lexeme:
none of the verified claims depends on numeric normalisation, only on
whether parsing succeeds.  Strings are Lean strings; JavaScript string
indices and lengths (UTF-16 units) are modelled by Lean character
positions, which agree on all inputs appearing in this development.
-/

set_option autoImplicit false

namespace OllamaAgent

/-- Dynamic JavaScript value: `undefined`, `null`, booleans, numbers
(represented by their JSON lexeme), strings, arrays and objects
(association lists in insertion order). -/
inductive JVal : Type where
  | vundef : JVal
  | vnull : JVal
  | vbool : Bool → JVal
  | vnum : String → JVal
  | vstr : String → JVal
  | varr : List JVal → JVal
  | vobj : List (String × JVal) → JVal

/-- Numeric lexeme denoting zero: every digit of the mantissa is `0`
(sign, decimal point and exponent ignored). -/
def numLexIsZero (lex : String) : Bool :=
  (lex.toList.takeWhile (fun c => c ≠ 'e' && c ≠ 'E')).all
    (fun c => c = '0' || c = '.' || c = '-' || c = '+')

/-- JavaScript truthiness. Objects and arrays are always truthy; `""`,
numeric zero, `false`, `null` and `undefined` are falsy. -/
def truthy : JVal → Bool
  | .vundef => false
  | .vnull => false
  | .vbool b => b
  | .vnum lex => !(numLexIsZero lex)
  | .vstr s => !(s = "")
  | .varr _ => true
  | .vobj _ => true

/-- First binding of key `k` in an object's field list. `none` models a
property access returning `undefined`. -/
def jsLookup : List (String × JVal) → String → Option JVal
  | [], _ => none
  | (k0, v) :: rest, k => if k0 = k then some v else jsLookup rest k

/-- JavaScript property write `o[k] = v`: replaces the value in place when
the key exists (keeping its position), otherwise appends. -/
def jsSet : List (String × JVal) → String → JVal → List (String × JVal)
  | [], k, v => [(k, v)]
  | (k0, v0) :: rest, k, v =>
    if k0 = k then (k0, v) :: rest else (k0, v0) :: jsSet rest k v

/-- Property read `o.k` with JavaScript semantics on non-objects: reading a
field of a primitive or array yields `undefined` (named properties of
strings/arrays other than indices are not used by the embedded code). -/
def jsField : JVal → String → JVal
  | .vobj fields, k => (jsLookup fields k).getD .vundef
  | _, _ => (.vundef)

/-- Index read `a[i]` (array element, or one-character string). -/
def jsIndex : JVal → Nat → JVal
  | .varr xs, i => xs.getD i .vundef
  | .vstr s, i =>
    match s.toList.get? i with
    | some c => .vstr c.toString
    | none => .vundef
  | _, _ => (.vundef)

/-- Index-labelled entries of an array, as produced by `Object.entries`
or object spread on a JavaScript array. -/
def arrEntries (i : Nat) : List JVal → List (String × JVal)
  | [] => []
  | x :: xs => (toString i, x) :: arrEntries (i + 1) xs

/-- Index-labelled entries of a string (JavaScript strings spread to
objects with one-character string values). -/
def strEntries (i : Nat) : List Char → List (String × JVal)
  | [] => []
  | c :: cs => (toString i, .vstr c.toString) :: strEntries (i + 1) cs

/-- `Object.entries` / object-spread view of an arbitrary value: fields of
an object, indexed elements of an array, indexed characters of a string,
and no entries for other primitives. -/
def jsEntries : JVal → List (String × JVal)
  | .vobj fields => fields
  | .varr xs => arrEntries 0 xs
  | .vstr s => strEntries 0 s.toList
  | _ => []

mutual

/-- Size measure used for termination of the reflective merge. -/
def jsize : JVal → Nat
  | .vundef => 1
  | .vnull => 1
  | .vbool _ => 1
  | .vnum _ => 1
  | .vstr _ => 1
  | .varr xs => 1 + jsizeElems xs
  | .vobj fields => 1 + jsizeFields fields

def jsizeElems : List JVal → Nat
  | [] => 0
  | x :: xs => jsize x + 1 + jsizeElems xs

def jsizeFields : List (String × JVal) → Nat
  | [] => 0
  | (_, v) :: fields => jsize v + 1 + jsizeFields fields

end

theorem jsizeFields_arrEntries (i : Nat) (xs : List JVal) :
    jsizeFields (arrEntries i xs) = jsizeElems xs := by
  induction xs generalizing i with
  | nil => rfl
  | cons x xs ih => simp [arrEntries, jsizeFields, jsizeElems, ih]

/-!
## Stream aggregator (`messageReducer`, src/unnamed/part_000 lines 287-315)

The source's inner `reduce(acc, delta)` spreads `acc` into a fresh object
and walks `Object.entries(delta)`, branching per key on the runtime types
of the accumulated and incoming values.  `jsEntries` models both the
spread and `Object.entries` (JavaScript's `typeof x === "object"` holds
for objects, arrays and `null`, so the object-merge branch below accepts
those shapes).
-/

/-- Total variant of the per-element `delete arr.index` cleanup: the
TypeError that `delete` raises on a `null`/`undefined` base is collapsed
into a no-op here; `delIndexPropE` below models the throw. -/
def delIndexProp : JVal → JVal
  | .vobj fields => .vobj (fields.filter (fun p => p.1 ≠ "index"))
  | v => v

/-- Cleanup the source performs right after first assigning a value: when
the assigned value is an array, `index` properties are deleted from its
elements. -/
def cleanIndex : JVal → JVal
  | .varr xs => .varr (xs.map delIndexProp)
  | v => v

/-- The branch chain of the source's `reduce`, restricted to a delta value
`v` that is not object-like (string, number, boolean or `undefined`): the
string-append branch may fire, the array and object branches cannot.
Used when a delta's entries stem from spreading a string (each value a
one-character string), where no recursion can occur. -/
def stepScalar (accF : List (String × JVal)) (k : String) (v : JVal) :
    List (String × JVal) :=
  match jsLookup accF k with
  | none => jsSet accF k (cleanIndex v)
  | some cur =>
    match cur, v with
    | .vundef, _ => jsSet accF k (cleanIndex v)
    | .vnull, _ => jsSet accF k (cleanIndex v)
    | .vstr a, .vstr b => jsSet accF k (.vstr (a ++ b))
    | _, _ => accF

mutual

/-- One `for (const [key, value] of Object.entries(delta))` iteration per
list element, threading the accumulator's fields. -/
def reduceObj (accF : List (String × JVal)) :
    List (String × JVal) → List (String × JVal)
  | [] => accF
  | (k, v) :: rest => reduceObj (stepField accF k v) rest
termination_by ds => jsizeFields ds
decreasing_by all_goals (simp [jsizeFields] <;> omega)

/-- Total variant of the branch chain of the source's `reduce` for one
delta entry: missing/`undefined`/`null` accumulator slot is set (with the
`index` cleanup), string meets string appends, array meets array merges
positionally, object-like meets object-like merges recursively, and any
other combination leaves the accumulator unchanged.  A `null` delta value
meeting an object-typed slot is collapsed into a zero-entry merge here,
where the source's `Object.entries(null)` throws; `stepFieldE` below
models the throw. -/
def stepField (accF : List (String × JVal)) (k : String) (v : JVal) :
    List (String × JVal) :=
  match jsLookup accF k with
  | none => jsSet accF k (cleanIndex v)
  | some cur =>
    match cur, v with
    | .vundef, _ => jsSet accF k (cleanIndex v)
    | .vnull, _ => jsSet accF k (cleanIndex v)
    | .vstr a, .vstr b => jsSet accF k (.vstr (a ++ b))
    | .varr xs, .varr ys => jsSet accF k (.varr (mergeArr xs ys))
    | .vobj fs, .vobj ds => jsSet accF k (.vobj (reduceObj fs ds))
    | .vobj fs, .varr ys => jsSet accF k (.vobj (reduceObj fs (arrEntries 0 ys)))
    | .vobj fs, .vnull => jsSet accF k (.vobj (reduceObj fs []))
    | .varr xs, .vobj ds => jsSet accF k (.vobj (reduceObj (arrEntries 0 xs) ds))
    | .varr xs, .vnull => jsSet accF k (.vobj (reduceObj (arrEntries 0 xs) []))
    | _, _ => accF
termination_by jsize v
decreasing_by all_goals (simp [jsize, jsizeFields, jsizeElems, jsizeFields_arrEntries] <;> omega)

/-- Total variant of the positional array merge: element `i` of the
fragment array merges into element `i` of the accumulator array; a
missing or falsy accumulator slot is replaced by `\x7b\x7d` first;
accumulator elements beyond the fragment's length remain.  A
`null`/`undefined` fragment element is collapsed into a zero-entry merge
here, where the source's recursive `reduce` throws; `mergeArrE` below
models the throw. -/
def mergeArr : List JVal → List JVal → List JVal
  | xs, [] => xs
  | [], y :: ys => reduceAny (if truthy .vundef then .vundef else .vobj []) y :: mergeArr [] ys
  | x :: xs, y :: ys => reduceAny (if truthy x then x else .vobj []) y :: mergeArr xs ys
termination_by xs ys => jsizeElems ys
decreasing_by all_goals (simp [jsizeElems] <;> omega)

/-- Total variant of the source's `reduce(acc, delta)` for an arbitrary
delta: spread `acc` into an object and fold the delta's entries through
the branch chain.  The catch-all treats a `null`/`undefined` delta as
entry-less where `Object.entries` throws; `reduceAnyE` below models the
throw. -/
def reduceAny (acc : JVal) : JVal → JVal
  | .vobj ds => .vobj (reduceObj (jsEntries acc) ds)
  | .varr ys => .vobj (reduceObj (jsEntries acc) (arrEntries 0 ys))
  | .vstr s => .vobj ((strEntries 0 s.toList).foldl
      (fun f p => stepScalar f p.1 p.2)
      (jsEntries acc))
  | _ => .vobj (jsEntries acc)
termination_by y => jsize y
decreasing_by all_goals (simp [jsize, jsizeFields, jsizeElems, jsizeFields_arrEntries] <;> omega)

end

/-- `messageReducer(previous, item)` (src/unnamed/part_000 lines 287-315):
merges `item.choices[0]?.delta || {}` into the accumulated message.  The
unguarded `[0]` access would throw in JavaScript only when `choices` is
absent, and every call site first guards with
`if (!chunk.choices?.[0]) continue`, so the total model is faithful on all
reachable inputs. -/
def messageReducer (previous item : JVal) : JVal :=
  let delta := jsField (jsIndex (jsField item "choices") 0) "delta"
  reduceAny previous (if truthy delta then delta else .vobj [])

/-!
## JSON (`JSON.parse` / `JSON.stringify`)

The decoder stages and the external-registry dispatch path call
JavaScript's built-in `JSON.parse`; the transport's error message and the
inline-invocation fallback call `JSON.stringify`.  `jsonParse` implements
the grammar accepted by `JSON.parse` (RFC 8259: strict string escapes, no
trailing commas, JSON-only whitespace), structurally recursive on a
character budget always sufficient for the input, so closed terms
evaluate by `rfl`.  Error messages stand in for the engine's
`SyntaxError` texts; no claim depends on their wording.
-/

def isJsonWs (c : Char) : Bool := c = ' ' || c = '\t' || c = '\n' || c = '\r'

def skipWs : List Char → List Char
  | [] => []
  | c :: cs => if isJsonWs c then skipWs cs else c :: cs

def hexDigitVal (c : Char) : Option Nat :=
  if '0' ≤ c ∧ c ≤ '9' then some (c.toNat - '0'.toNat)
  else if 'a' ≤ c ∧ c ≤ 'f' then some (c.toNat - 'a'.toNat + 10)
  else if 'A' ≤ c ∧ c ≤ 'F' then some (c.toNat - 'A'.toNat + 10)
  else none

/-- Body of a JSON string, after the opening quote: strict escapes, raw
control characters rejected. -/
def jparseStrBody (fuel : Nat) (cs : List Char) (acc : List Char) :
    Except String (String × List Char) :=
  match fuel with
  | 0 => .error "JSON parse fuel exhausted"
  | fuel + 1 =>
    match cs with
    | [] => .error "Unterminated string in JSON"
    | c :: rest =>
      if c = '"' then .ok (String.mk acc.reverse, rest)
      else if c = '\\' then
        match rest with
        | [] => .error "Unterminated escape in JSON"
        | e :: rest2 =>
          if e = '"' || e = '\\' || e = '/' then jparseStrBody fuel rest2 (e :: acc)
          else if e = 'b' then jparseStrBody fuel rest2 ('\x08' :: acc)
          else if e = 'f' then jparseStrBody fuel rest2 ('\x0c' :: acc)
          else if e = 'n' then jparseStrBody fuel rest2 ('\n' :: acc)
          else if e = 'r' then jparseStrBody fuel rest2 ('\r' :: acc)
          else if e = 't' then jparseStrBody fuel rest2 ('\t' :: acc)
          else if e = 'u' then
            match rest2 with
            | h1 :: h2 :: h3 :: h4 :: rest3 =>
              match hexDigitVal h1, hexDigitVal h2, hexDigitVal h3, hexDigitVal h4 with
              | some a, some b, some c2, some d =>
                jparseStrBody fuel rest3
                  (Char.ofNat (((a * 16 + b) * 16 + c2) * 16 + d) :: acc)
              | _, _, _, _ => .error "Bad unicode escape in JSON"
            | _ => .error "Bad unicode escape in JSON"
          else .error "Bad escape in JSON"
      else if c.toNat < 32 then .error "Bad control character in JSON string"
      else jparseStrBody fuel rest (c :: acc)

def spanDigits : List Char → List Char × List Char
  | [] => ([], [])
  | c :: rest =>
    if c.isDigit then
      let p := spanDigits rest
      (c :: p.1, p.2)
    else ([], c :: rest)

/-- Optional fraction part of a JSON number. -/
def jparseFracPart (cs : List Char) : Except String (List Char × List Char) :=
  match cs with
  | '.' :: r1 =>
    let p := spanDigits r1
    if p.1.isEmpty then .error "Bad number in JSON" else .ok ('.' :: p.1, p.2)
  | _ => .ok ([], cs)

/-- Optional exponent part of a JSON number. -/
def jparseExpPart (cs : List Char) : Except String (List Char × List Char) :=
  match cs with
  | c :: r1 =>
    if c = 'e' || c = 'E' then
      let sp : List Char × List Char :=
        match r1 with
        | '+' :: r2 => (['+'], r2)
        | '-' :: r2 => (['-'], r2)
        | _ => ([], r1)
      let p := spanDigits sp.2
      if p.1.isEmpty then .error "Bad exponent in JSON"
      else .ok (c :: (sp.1 ++ p.1), p.2)
    else .ok ([], c :: r1)
  | [] => .ok ([], [])

/-- A JSON number, returned as its lexeme. -/
def jparseNum (cs : List Char) : Except String (String × List Char) :=
  let sp : List Char × List Char :=
    match cs with
    | '-' :: r => (['-'], r)
    | _ => ([], cs)
  let intRes : Except String (List Char × List Char) :=
    match sp.2 with
    | [] => .error "Unexpected end of JSON number"
    | c :: r1 =>
      if c = '0' then .ok (['0'], r1)
      else if c.isDigit then .ok (spanDigits (c :: r1))
      else .error "Unexpected token in JSON"
  match intRes with
  | .error e => .error e
  | .ok (ip, r2) =>
    match jparseFracPart r2 with
    | .error e => .error e
    | .ok (fp, r3) =>
      match jparseExpPart r3 with
      | .error e => .error e
      | .ok (ep, r4) => .ok (String.mk (sp.1 ++ ip ++ fp ++ ep), r4)

mutual

/-- A JSON value (after skipping leading whitespace). -/
def jparseVal (fuel : Nat) (cs : List Char) : Except String (JVal × List Char) :=
  match fuel with
  | 0 => .error "JSON parse fuel exhausted"
  | fuel + 1 =>
    match skipWs cs with
    | [] => .error "Unexpected end of JSON input"
    | c :: rest =>
      if c = '"' then
        match jparseStrBody (rest.length + 1) rest [] with
        | .error e => .error e
        | .ok (s, r2) => .ok (.vstr s, r2)
      else if c = '\x7b' then jparseObjBody fuel rest []
      else if c = '[' then jparseArrBody fuel rest []
      else if c = 't' then
        match rest with
        | 'r' :: 'u' :: 'e' :: r2 => .ok (.vbool true, r2)
        | _ => .error "Unexpected token in JSON"
      else if c = 'f' then
        match rest with
        | 'a' :: 'l' :: 's' :: 'e' :: r2 => .ok (.vbool false, r2)
        | _ => .error "Unexpected token in JSON"
      else if c = 'n' then
        match rest with
        | 'u' :: 'l' :: 'l' :: r2 => .ok (.vnull, r2)
        | _ => .error "Unexpected token in JSON"
      else if c = '-' || c.isDigit then
        match jparseNum (c :: rest) with
        | .error e => .error e
        | .ok (lex, r2) => .ok (.vnum lex, r2)
      else .error "Unexpected token in JSON"

/-- Elements of a JSON array, called just after `[` or after a comma. -/
def jparseArrBody (fuel : Nat) (cs : List Char) (acc : List JVal) :
    Except String (JVal × List Char) :=
  match fuel with
  | 0 => .error "JSON parse fuel exhausted"
  | fuel + 1 =>
    match skipWs cs with
    | ']' :: rest =>
      if acc.isEmpty then .ok (.varr [], rest)
      else .error "Unexpected token in JSON array"
    | cs1 =>
      match jparseVal fuel cs1 with
      | .error e => .error e
      | .ok (v, r2) =>
        match skipWs r2 with
        | ',' :: r3 => jparseArrBody fuel r3 (v :: acc)
        | ']' :: r3 => .ok (.varr (v :: acc).reverse, r3)
        | _ => .error "Bad array in JSON"

/-- Members of a JSON object, called just after the opening brace or after
a comma.  Duplicate keys follow JavaScript object semantics (`jsSet`):
last value wins, first position kept. -/
def jparseObjBody (fuel : Nat) (cs : List Char) (acc : List (String × JVal)) :
    Except String (JVal × List Char) :=
  match fuel with
  | 0 => .error "JSON parse fuel exhausted"
  | fuel + 1 =>
    match skipWs cs with
    | '\x7d' :: rest =>
      if acc.isEmpty then .ok (.vobj [], rest)
      else .error "Unexpected token in JSON object"
    | '"' :: rest =>
      match jparseStrBody (rest.length + 1) rest [] with
      | .error e => .error e
      | .ok (k, r2) =>
        match skipWs r2 with
        | ':' :: r3 =>
          match jparseVal fuel r3 with
          | .error e => .error e
          | .ok (v, r4) =>
            match skipWs r4 with
            | ',' :: r5 => jparseObjBody fuel r5 (jsSet acc k v)
            | '\x7d' :: r5 => .ok (.vobj (jsSet acc k v), r5)
            | _ => .error "Bad object in JSON"
        | _ => .error "Expected colon in JSON object"
    | _ => .error "Expected string key in JSON object"

end

/-- `JSON.parse`: one value, then only trailing whitespace. -/
def jsonParse (s : String) : Except String JVal :=
  match jparseVal (2 * s.toList.length + 2) s.toList with
  | .error e => .error e
  | .ok (v, rest) =>
    match skipWs rest with
    | [] => .ok v
    | _ => .error "Unexpected token after JSON value"

def hexLower (n : Nat) : String :=
  (Char.ofNat (if n < 10 then '0'.toNat + n else 'a'.toNat + n - 10)).toString

/-- One character of a `JSON.stringify` string literal. -/
def jsonEscChar (c : Char) : String :=
  if c = '"' then "\\\""
  else if c = '\\' then "\\\\"
  else if c = '\n' then "\\n"
  else if c = '\r' then "\\r"
  else if c = '\t' then "\\t"
  else if c = '\x08' then "\\b"
  else if c = '\x0c' then "\\f"
  else if c.toNat < 32 then "\\u00" ++ hexLower (c.toNat / 16) ++ hexLower (c.toNat % 16)
  else c.toString

def jsonQuote (s : String) : String :=
  "\"" ++ String.join (s.toList.map jsonEscChar) ++ "\""

mutual

/-- `JSON.stringify` (no spacing).  `undefined` is only ever stringified
by the embedded code inside arrays (as `null`), omitted from objects; a
top-level `undefined` renders as the text `undefined`, matching how the
call sites interpolate the result into log strings. -/
def jsonStringify : JVal → String
  | .vundef => "undefined"
  | .vnull => "null"
  | .vbool b => if b then "true" else "false"
  | .vnum lex => lex
  | .vstr s => jsonQuote s
  | .varr xs => "[" ++ jstrElems xs ++ "]"
  | .vobj fs => "\x7b" ++ String.intercalate "," (jstrFields fs) ++ "\x7d"

def jstrElems : List JVal → String
  | [] => ""
  | x :: xs =>
    (match x with
      | .vundef => "null"
      | _ => jsonStringify x) ++
      (match xs with
        | [] => ""
        | _ => "," ++ jstrElems xs)

def jstrFields : List (String × JVal) → List String
  | [] => []
  | (k, v) :: fs =>
    match v with
    | .vundef => jstrFields fs
    | _ => (jsonQuote k ++ ":" ++ jsonStringify v) :: jstrFields fs

end

/-!
## Argument decoder (`safeJsonParse`, src/unnamed/part_000 lines 636-761)

`safeJsonParse` tries `JSON.parse` on the raw string, then a structural
repair (`fixJsonString` over a possibly brace-trimmed span), then a manual
regex extraction, finally returning `{}`.  The regex passes are modelled
by deterministic scanners; each models the exact backtracking behaviour of
its pattern (analysed in the respective doc comments).
-/

/-- Characters matched by the regex class `\s` and trimmed by
`String.prototype.trim` (ASCII whitespace, NBSP and BOM; more exotic
Unicode spaces are not modelled and appear in no input here). -/
def jsWsChar (c : Char) : Bool :=
  c = ' ' || c = '\t' || c = '\n' || c = '\r' || c = '\x0b' || c = '\x0c' ||
  c = '\xa0' || c = '﻿'

/-- `String.prototype.trim`. -/
def jsTrim (s : String) : String :=
  String.mk (((s.toList.dropWhile jsWsChar).reverse.dropWhile jsWsChar).reverse)

/-- The span matched by `/\{.*\}/s` (dot matches newlines, greedy): from
the first opening brace to the last closing brace after it; the input
unchanged when there is no such span (`match` returned `null` and the
source keeps `fixedJson`). -/
def extractBracesSpan (s : String) : String :=
  let cs := s.toList
  match cs.findIdx? (fun c => c = '\x7b') with
  | none => s
  | some i =>
    match cs.reverse.findIdx? (fun c => c = '\x7d') with
    | none => s
    | some jr =>
      let j := cs.length - 1 - jr
      if i < j then String.mk ((cs.drop i).take (j - i + 1)) else s

/-- Last index of `ctl` in `run` (callers guarantee membership). -/
def lastIdxOf (run : List Char) (ctl : Char) : Nat :=
  run.length - 1 - (run.reverse.indexOf ctl)

/-- One global pass of `/(":\s*"[^"]*)CTL([^"]*")/g → '$1\CTL$2'` (steps 3
and 4 of `fixJsonString`).  At a `":` anchor the pattern deterministically
consumes a whitespace run, an opening quote and the maximal quote-free
run; it matches when that run contains `ctl` and is followed by a closing
quote, the greedy first group making the escaped occurrence the *last*
`ctl` of the run; the scan resumes after the closing quote, and on a
failed attempt the regex advances one character. -/
def escapeCtl (ctl : Char) (escLetter : Char) :
    Nat → List Char → List Char
  | 0, cs => cs
  | _ + 1, [] => []
  | fuel + 1, c :: cs =>
    if c = '"' then
      match cs with
      | ':' :: cs2 =>
        let ws := cs2.takeWhile jsWsChar
        match cs2.drop ws.length with
        | '"' :: cs4 =>
          let run := cs4.takeWhile (fun c2 => c2 ≠ '"')
          match cs4.drop run.length with
          | '"' :: cs6 =>
            if run.contains ctl then
              let idx := lastIdxOf run ctl
              c :: ':' :: ws ++ '"' ::
                (run.take idx ++ '\\' :: escLetter :: run.drop (idx + 1)) ++
                '"' :: escapeCtl ctl escLetter fuel cs6
            else c :: escapeCtl ctl escLetter fuel cs
          | _ => c :: escapeCtl ctl escLetter fuel cs
        | _ => c :: escapeCtl ctl escLetter fuel cs
      | _ => c :: escapeCtl ctl escLetter fuel cs
    else c :: escapeCtl ctl escLetter fuel cs

/-- Step 5 of `fixJsonString`: `/(?<!\\)\\(?!["\\\/bfnrt])/g → '\\\\'`.
A backslash is doubled when the *original* preceding character is not a
backslash and the following character is not one of the JSON escape
letters; `prev` carries the original predecessor. -/
def escapeLoneBackslashes (prev : Option Char) : List Char → List Char
  | [] => []
  | c :: rest =>
    if c = '\\' && prev ≠ some '\\' &&
        (match rest with
          | [] => true
          | r :: _ => !(r = '"' || r = '\\' || r = '/' || r = 'b' || r = 'f' ||
              r = 'n' || r = 'r' || r = 't')) then
      '\\' :: '\\' :: escapeLoneBackslashes (some c) rest
    else c :: escapeLoneBackslashes (some c) rest

/-- `fixJsonString` (src lines 675-704).  Steps 1 and 2 of the source are
identities: in step 1 the value capture `[^"]*` cannot contain a quote, so
the inner `replace(/(?<!\\)"/g, ...)` changes nothing and the replacement
template reassembles the match verbatim; in step 2 the value capture
`[^"]*(?:\\.[^"]*)*` contains quotes only as the character following a
backslash, where the negative lookbehind blocks the inner replace, hence
`match.replace(value, value)` is again the match itself.  Steps 3-5 are
the scanners above, in source order: newline, tab, carriage return, then
lone backslashes. -/
def fixJsonString (s : String) : String :=
  let s3 := escapeCtl '\n' 'n' (s.toList.length + 1) s.toList
  let s4 := escapeCtl '\t' 't' (s3.length + 1) s3
  let s5 := escapeCtl '\r' 'r' (s4.length + 1) s4
  String.mk (escapeLoneBackslashes none s5)

/-- The string handed to the structural-repair parse (stage 2 of
`safeJsonParse`): trim, keep as-is when already brace-delimited, else try
to cut the outermost brace span. -/
def headIs (s : String) (c : Char) : Bool :=
  match s.toList with
  | c0 :: _ => c0 = c
  | [] => false

def lastIs (s : String) (c : Char) : Bool :=
  match s.toList.getLast? with
  | some c0 => c0 = c
  | none => false

def stage2Input (s : String) : String :=
  let t := jsTrim s
  if headIs t '\x7b' ∧ lastIs t '\x7d' then t else extractBracesSpan t

/-- Stage 2 of `safeJsonParse`: `JSON.parse(fixJsonString(...))`. -/
def stage2Parse (s : String) : Except String JVal :=
  jsonParse (fixJsonString (stage2Input s))

/-- The value stored for an unquoted `"key": value` match: re-parsed as
JSON for type inference, kept as a string when that fails. -/
def kvUnquotedVal (run : List Char) : JVal :=
  match jsonParse (String.mk run) with
  | .ok v => v
  | .error _ => .vstr (String.mk run)

/-- One attempt of `/"([^"]+)"\s*:\s*(?:"([^"]*)"|([^,}\s]+))/` at a
position whose opening quote is already consumed: non-empty quote-free
key, closing quote, `\s*:\s*`, then the quoted-value alternative first
(maximal quote-free run closed by a quote) and otherwise a non-empty run
free of comma, closing brace and whitespace (which may itself start with
the quote character the first alternative failed on). -/
def kvTryAt (cs : List Char) : Option ((String × JVal) × List Char) :=
  let keyRun := cs.takeWhile (fun c => c ≠ '"')
  if keyRun.isEmpty then none
  else
    match cs.drop keyRun.length with
    | '"' :: cs2 =>
      let ws1 := cs2.takeWhile jsWsChar
      match cs2.drop ws1.length with
      | ':' :: cs3 =>
        let cs4 := cs3.drop (cs3.takeWhile jsWsChar).length
        let unquoted : Option ((String × JVal) × List Char) :=
          let run := cs4.takeWhile
            (fun c => !(c = ',' || c = '\x7d' || jsWsChar c))
          if run.isEmpty then none
          else some ((String.mk keyRun, kvUnquotedVal run), cs4.drop run.length)
        match cs4 with
        | '"' :: cs5 =>
          let vrun := cs5.takeWhile (fun c => c ≠ '"')
          match cs5.drop vrun.length with
          | '"' :: cs6 => some ((String.mk keyRun, .vstr (String.mk vrun)), cs6)
          | _ => unquoted
        | _ => unquoted
      | _ => none
    | _ => none

/-- The `keyValuePattern.exec` loop of `extractArgumentsManually`:
left-to-right non-overlapping matches, each binding `result[key] = value`
(JavaScript assignment semantics via `jsSet`), advancing one character
past a failed attempt. -/
def kvScan : Nat → List Char → List (String × JVal) → List (String × JVal)
  | 0, _, acc => acc
  | _ + 1, [], acc => acc
  | fuel + 1, c :: rest, acc =>
    if c = '"' then
      match kvTryAt rest with
      | some (kv, rest2) => kvScan fuel rest2 (jsSet acc kv.1 kv.2)
      | none => kvScan fuel rest acc
    else kvScan fuel rest acc

/-- The `simplePattern = /"([^"]+)"/g` loop: collect maximal non-empty
quote-free runs enclosed in quotes, left to right, non-overlapping. -/
def quotedTokens : Nat → List Char → List String
  | 0, _ => []
  | _ + 1, [] => []
  | fuel + 1, c :: rest =>
    if c = '"' then
      let run := rest.takeWhile (fun c2 => c2 ≠ '"')
      if run.isEmpty then quotedTokens fuel rest
      else
        match rest.drop run.length with
        | '"' :: rest2 => String.mk run :: quotedTokens fuel rest2
        | _ => quotedTokens fuel rest
    else quotedTokens fuel rest

/-- `result[values[i]] = values[i+1]` over consecutive token pairs. -/
def pairFold (acc : List (String × JVal)) : List String → List (String × JVal)
  | [] => acc
  | [_] => acc
  | k :: v :: rest => pairFold (jsSet acc k (.vstr v)) rest

/-- The key/value bindings found by the `keyValuePattern.exec` loop. -/
def decoderKvPairs (s : String) : List (String × JVal) :=
  kvScan (s.toList.length + 1) s.toList []

/-- The tokens found by the `simplePattern.exec` loop. -/
def decoderTokens (s : String) : List String :=
  quotedTokens (s.toList.length + 1) s.toList

/-- `extractArgumentsManually` (src lines 706-761): the key/value regex
scan, then — only when it bound nothing — the quoted-token pairing, which
applies only to an even number (at least two) of tokens; otherwise the
empty mapping.  The function's own catch-all returns `\x7b\x7d`, so the model is
total. -/
def extractArgumentsManually (s : String) : JVal :=
  let kv := decoderKvPairs s
  if kv.isEmpty then
    let toks := decoderTokens s
    if 2 ≤ toks.length ∧ toks.length % 2 = 0 then .vobj (pairFold [] toks)
    else .vobj []
  else .vobj kv

/-- `safeJsonParse` (src lines 636-673): direct parse, then structural
repair, then manual extraction, then `\x7b\x7d`.  The `!jsonString` guard only
fires on the empty string here, the `typeof` guard being enforced by the
model's types (the non-string call sites are modelled at `executeTool`). -/
def safeJsonParse (s : String) : JVal :=
  if s = "" then .vobj []
  else
    match jsonParse s with
    | .ok v => v
    | .error _ =>
      match stage2Parse s with
      | .ok v => v
      | .error _ => extractArgumentsManually s

/-!
## Conversation messages

`OllamaMessage` (ollama-client source lines 333-338): role, content, and
the optional tool-call fields.  Streamed tool-call values are dynamic
data, kept as `JVal`.
-/

structure OMsg where
  role : String
  content : String
  tool_calls : Option JVal
  tool_call_id : Option JVal

/-- `substring(0, n)` on a JavaScript string. -/
def strTake (s : String) (n : Nat) : String :=
  String.mk (s.toList.take n)

/-!
## Context compaction (`summarizeContext`, src/unnamed/part_000 lines 918-957)
-/

/-- One line of the summary digest: role-labelled content, tool results
truncated to 100 characters; other roles render empty and are dropped by
the `.filter(Boolean)`.  (For `tool` messages the source re-stringifies a
non-string `content`; `content` is a string throughout this model, as it
is at every push site.) -/
def renderForSummary (m : OMsg) : String :=
  if m.role = "user" then "User: " ++ m.content
  else if m.role = "assistant" then "Assistant: " ++ m.content
  else if m.role = "tool" then "Tool result: " ++ strTake m.content 100 ++ "..."
  else ""

/-- Join a list of strings with newlines (`Array.prototype.join('\n')`). -/
def joinLines : List String → String
  | [] => ""
  | [s] => s
  | s :: rest => s ++ "\n" ++ joinLines rest

/-- `summarizeContext`: with more than 10 messages, keep message 0, replace
everything up to the last 6 messages by one synthetic assistant summary
carrying the (twice-truncated) digest.  The source's `catch` fallback is
unreachable here: digest construction cannot throw in the pure model. -/
def summarizeContext (msgs : List OMsg) : List OMsg :=
  if msgs.length ≤ 10 then msgs
  else
    let systemMessage := msgs.take 1
    let recentMessages := msgs.drop (msgs.length - 6)
    let messagesToSummarize := (msgs.drop 1).take (msgs.length - 7)
    if messagesToSummarize.length = 0 then msgs
    else
      let summaryContent :=
        joinLines ((messagesToSummarize.map renderForSummary).filter
          (fun s => s ≠ ""))
      let summaryMessage : OMsg :=
        ⟨"assistant",
          "[Context Summary] Previous conversation included:\n" ++
            strTake summaryContent 1000 ++ "...", none, none⟩
      systemMessage ++ summaryMessage :: recentMessages

/-- The compaction trigger in `processUserMessageStream` (src lines
336-343): summarize only when the token estimate exceeds 15000.  The token
estimate itself comes from `token-counter.ts`, which is not part of the
provided sources; it enters as a plain argument. -/
def compactIfNeeded (inputTokens : Nat) (msgs : List OMsg) : List OMsg :=
  if 15000 < inputTokens then summarizeContext msgs else msgs

/-!
## Transport (`OllamaClient.chat`, ollama-client source lines 511-652)

The HTTP layer is the outside world: each attempt's outcome (a response,
or an axios-style error with optional HTTP status, error code, response
data and headers) is an oracle `Nat → Attempt` indexed by the attempt
number, and `new Date().toISOString()` is an oracle `Nat → String` indexed
the same way.
-/

structure HttpFailure where
  status : Option Nat
  code : Option String
  message : String
  respData : Option JVal
  headers : Option JVal

inductive Attempt where
  | success : JVal → Attempt
  | failure : HttpFailure → Attempt

structure OTool where
  name : String
  description : String
  parameters : JVal

/-- `convertTools` (lines 551-560). -/
def convertTools (tools : List OTool) : List JVal :=
  tools.map (fun t => .vobj [("type", .vstr "function"),
    ("function", .vobj [("name", .vstr t.name),
      ("description", .vstr t.description),
      ("parameters", t.parameters)])])

/-- Argument conversion inside `convertMessages` (lines 520-539): a string
argument payload is parsed, `\x7b\x7d` on failure; a non-string one is passed
through. -/
def convertToolCall (tc : JVal) : JVal :=
  let fn := jsField tc "function"
  let parsedArguments : JVal :=
    match jsField fn "arguments" with
    | .vstr s =>
      match jsonParse s with
      | .ok v => v
      | .error _ => .vobj []
    | v => v
  .vobj [("id", jsField tc "id"), ("type", jsField tc "type"),
    ("function", .vobj [("name", jsField fn "name"),
      ("arguments", parsedArguments)])]

/-- `if (msg.tool_calls)` branch body: map the conversion over the array
(the value is an array at every push site). -/
def convertToolCallsVal : JVal → JVal
  | .varr l => .varr (l.map convertToolCall)
  | v => v

/-- `convertMessages` (lines 511-548). -/
def convertMessage (m : OMsg) : JVal :=
  let base := [("role", JVal.vstr m.role), ("content", JVal.vstr m.content)]
  let withCalls :=
    match m.tool_calls with
    | some tc => if truthy tc then base ++ [("tool_calls", convertToolCallsVal tc)] else base
    | none => base
  match m.tool_call_id with
  | some cid => .vobj (if truthy cid then withCalls ++ [("tool_call_id", cid)] else withCalls)
  | none => .vobj withCalls

def convertMessages (msgs : List OMsg) : List JVal := msgs.map convertMessage

structure ChatPayload where
  model : String
  messages : List JVal
  tools : Option (List JVal)
  streamFlag : Bool

/-- `model: model || this.currentModel` plus payload assembly; `tools`
included only when provided and non-empty. -/
def mkChatPayload (currentModel : String) (msgs : List OMsg)
    (tools : Option (List OTool)) (modelArg : Option String)
    (streamFlag : Bool) : ChatPayload :=
  ⟨(match modelArg with
    | some m => if m = "" then currentModel else m
    | none => currentModel),
   convertMessages msgs,
   (match tools with
    | some ts => if 0 < ts.length then some (convertTools ts) else none
    | none => none),
   streamFlag⟩

/-- `LastErrorDetails` (ollama-client source lines 411-423). -/
structure LastErrorDetails where
  timestamp : String
  status : Nat
  message : String
  response : Option JVal
  headers : Option JVal
  payloadModel : String
  payloadMessages : List JVal
  payloadTools : Option (List JVal)
  payloadStream : Bool

def mkLastErrorDetails (timestamp : String) (status : Nat) (e : HttpFailure)
    (p : ChatPayload) : LastErrorDetails :=
  ⟨timestamp, status, e.message, e.respData, e.headers,
   p.model, p.messages, p.tools, p.streamFlag⟩

/-- The thrown message (lines 600-608): base text, then the status suffix
when a status is present, then the stringified response data when
truthy. -/
def chatErrorMessage (e : HttpFailure) : String :=
  ("Ollama API error: " ++ e.message) ++
    (match e.status with
      | some n => " (status: " ++ toString n ++ ")"
      | none => "") ++
    (match e.respData with
      | some d => if truthy d then " - " ++ jsonStringify d else ""
      | none => "")

/-- Retryability (lines 635-637): 429, 500-504, connection refused or
timed out.  A missing status fails both numeric comparisons, as the
`undefined` comparisons do in JavaScript. -/
def isRetryable (e : HttpFailure) : Bool :=
  (match e.status with
    | some n => n = 429 || (500 ≤ n && n ≤ 504)
    | none => false) ||
  e.code = some "ECONNREFUSED" || e.code = some "ETIMEDOUT"

structure ChatOutcome where
  result : Except String JVal
  delaysMs : List Nat
  attemptsMade : Nat
  finalError : Option LastErrorDetails

/-- The `while (retryCount <= maxRetries)` loop of `chat` (lines 581-649)
with `maxRetries = 3`.  `rc` is `retryCount` at loop entry (also the
number of attempts already made, hence the oracle index); on failure the
counter increments, a 4xx failure overwrites the error-details record, and
a retryable failure within budget sleeps `2^(retryCount-1) * 1000` ms and
continues; anything else throws the composed message.  The fuel argument
only realises the loop's syntactic bound; with fuel 4 the `exceeded retry
loop` fallthrough (line 651) is unreachable, exactly as in the source. -/
def chatLoop (attempts : Nat → Attempt) (clock : Nat → String)
    (payload : ChatPayload) :
    Nat → Nat → Option LastErrorDetails → List Nat → ChatOutcome
  | 0, rc, led, delays =>
    ⟨.error "Unexpected error: exceeded retry loop", delays.reverse, rc, led⟩
  | fuel + 1, rc, led, delays =>
    match attempts rc with
    | .success r => ⟨.ok r, delays.reverse, rc + 1, led⟩
    | .failure e =>
      let rc2 := rc + 1
      let led2 :=
        match e.status with
        | some n =>
          if 400 ≤ n ∧ n < 500 then
            some (mkLastErrorDetails (clock rc) n e payload)
          else led
        | none => led
      if rc2 ≤ 3 ∧ isRetryable e then
        chatLoop attempts clock payload fuel rc2 led2
          (2 ^ (rc2 - 1) * 1000 :: delays)
      else ⟨.error (chatErrorMessage e), delays.reverse, rc2, led2⟩

/-- `OllamaClient.chat`: build the payload (`stream: false`) and run the
retry loop against the attempt oracle, threading the client's current
`lastErrorDetails`. -/
def chat (currentModel : String) (msgs : List OMsg)
    (tools : Option (List OTool)) (modelArg : Option String)
    (attempts : Nat → Attempt) (clock : Nat → String)
    (led0 : Option LastErrorDetails) : ChatOutcome :=
  chatLoop attempts clock (mkChatPayload currentModel msgs tools modelArg false)
    4 0 led0 []

/-- The mutable `lastErrorDetails` slot of `OllamaClient`. -/
structure ClientState where
  lastErrorDetails : Option LastErrorDetails

/-- `getLastErrorDetails` (lines 502-504). -/
def getLastErrorDetails (st : ClientState) : Option LastErrorDetails :=
  st.lastErrorDetails

/-- `clearLastErrorDetails` (lines 506-508). -/
def clearLastErrorDetails (_ : ClientState) : ClientState := ⟨none⟩

/-!
## Tool dispatch (`executeTool` / `executeMCPTool`, src/unnamed/part_000
lines 763-879)

Tool implementations (text editor, shell, todo list, search, the MCP
manager) are external collaborators performing I/O; they enter as oracle
functions in `ToolBackends`.  Dynamic property reads that can throw a
`TypeError` in JavaScript (reads on `null`/`undefined`) are modelled by
`jsGetField` in the `Except` monad; `executeTool`'s own `catch` turns any
such throw into a failed `ToolResult`.
-/

/-- `ToolResult` (src/types). -/
structure ToolResult where
  success : Bool
  output : Option String
  error : Option String

/-- Property read that throws on `null`/`undefined` bases (and otherwise
yields `undefined` for missing keys and non-object bases). -/
def jsGetField (v : JVal) (k : String) : Except String JVal :=
  match v with
  | .vnull => .error ("Cannot read properties of null (reading '" ++ k ++ "')")
  | .vundef => .error ("Cannot read properties of undefined (reading '" ++ k ++ "')")
  | _ => .ok (jsField v k)

mutual

/-- JavaScript `String(x)` coercion (used by `JSON.parse` on a non-string
argument and by the `String(item)` fallback): primitives by their text,
arrays joined by commas with `null`/`undefined` elements empty, plain
objects as `[object Object]`. -/
def jsToStringCoerce : JVal → String
  | .vstr s => s
  | .vnum lex => lex
  | .vbool b => if b then "true" else "false"
  | .vnull => "null"
  | .vundef => "undefined"
  | .vobj _ => "[object Object]"
  | .varr xs => commaJoinCoerce xs

def commaJoinCoerce : List JVal → String
  | [] => ""
  | x :: xs =>
    (match x with
      | .vnull => ""
      | .vundef => ""
      | _ => jsToStringCoerce x) ++
      (match xs with
        | [] => ""
        | _ => "," ++ commaJoinCoerce xs)

end

/-- One content item of an MCP tool result: a text block, a resource (with
optional URI), or anything else as its `String(item)` rendering. -/
inductive MCPItem where
  | text : String → MCPItem
  | resource : Option String → MCPItem
  | other : String → MCPItem

structure MCPResult where
  isError : Bool
  content : List MCPItem

/-- Backends for the external tool collaborators. -/
structure ToolBackends where
  textEditorView : String → Option (JVal × JVal) → ToolResult
  textEditorCreate : JVal → JVal → ToolResult
  textEditorStrReplace : JVal → JVal → JVal → JVal → ToolResult
  bashExecute : JVal → ToolResult
  todoCreate : JVal → ToolResult
  todoUpdate : JVal → ToolResult
  searchTool : String → List (String × JVal) → ToolResult
  mcpCallTool : String → JVal → Except String MCPResult

/-- `item.type === "text" ? item.text : item.type === "resource" ?
`Resource: ${item.resource?.uri || "Unknown"}` : String(item)`. -/
def renderMCPItem : MCPItem → String
  | .text t => t
  | .resource u =>
    "Resource: " ++
      (match u with
        | some s => if s = "" then "Unknown" else s
        | none => "Unknown")
  | .other r => r

/-- `(result.content[0] as any)?.text || "MCP tool error"`. -/
def mcpErrText (r : MCPResult) : String :=
  match r.content.head? with
  | some (.text t) => if t = "" then "MCP tool error" else t
  | _ => "MCP tool error"

/-- `executeMCPTool` (lines 843-879): the raw arguments go through the
*strict* `JSON.parse` (with JavaScript's string coercion of a non-string
operand); a parse failure is caught before the manager is ever consulted,
yielding the `MCP tool execution error` result.  `getMCPManager().callTool`
is the `mcpCallTool` oracle, whose own throw lands in the same catch. -/
def executeMCPTool (tb : ToolBackends) (tc : JVal) : ToolResult :=
  let fn := jsField tc "function"
  let nameStr :=
    match jsField fn "name" with
    | .vstr n => n
    | v => jsToStringCoerce v
  match jsonParse (jsToStringCoerce (jsField fn "arguments")) with
  | .error e => ⟨false, none, some ("MCP tool execution error: " ++ e)⟩
  | .ok args =>
    match tb.mcpCallTool nameStr args with
    | .error msg => ⟨false, none, some ("MCP tool execution error: " ++ msg)⟩
    | .ok result =>
      if result.isError then ⟨false, none, some (mcpErrText result)⟩
      else
        let output := joinLines (result.content.map renderMCPItem)
        ⟨true, some (if output = "" then "Success" else output), none⟩

/-- The `view_file` case (lines 768-781).  The guard
`!args || !args.path || typeof args.path !== 'string' ||
args.path.trim() === ''` collapses to a match on the (total, guarded)
`args.path` read: a falsy or non-object `args` has no truthy string
`path`. -/
def viewFileCase (tb : ToolBackends) (args : JVal) : ToolResult :=
  match jsField args "path" with
  | .vstr p =>
    if p = "" ∨ jsTrim p = "" then
      ⟨false, none, some ("Invalid path parameter: " ++ jsonStringify (JVal.vstr p) ++
        ". Path must be a non-empty string.")⟩
    else
      let s := jsField args "start_line"
      let e := jsField args "end_line"
      tb.textEditorView p (if truthy s ∧ truthy e then some (s, e) else none)
  | pv =>
    ⟨false, none, some ("Invalid path parameter: " ++ jsonStringify pv ++
      ". Path must be a non-empty string.")⟩

/-- The `search` case (lines 803-822), with the same guard shape on
`query` and the options object passed field by field. -/
def searchCase (tb : ToolBackends) (args : JVal) : ToolResult :=
  match jsField args "query" with
  | .vstr q =>
    if q = "" ∨ jsTrim q = "" then
      ⟨false, none, some ("Invalid query parameter: " ++ jsonStringify (JVal.vstr q) ++
        ". Query must be a non-empty string.")⟩
    else
      tb.searchTool q
        [("searchType", jsField args "search_type"),
         ("includePattern", jsField args "include_pattern"),
         ("excludePattern", jsField args "exclude_pattern"),
         ("caseSensitive", jsField args "case_sensitive"),
         ("wholeWord", jsField args "whole_word"),
         ("regex", jsField args "regex"),
         ("maxResults", jsField args "max_results"),
         ("fileTypes", jsField args "file_types"),
         ("includeHidden", jsField args "include_hidden")]
  | qv =>
    ⟨false, none, some ("Invalid query parameter: " ++ jsonStringify qv ++
      ". Query must be a non-empty string.")⟩

/-- The body of `executeTool`'s `try` (lines 764-834): decode the raw
arguments with the never-failing staged decoder (`\x7b\x7d` for a non-string
payload, per `safeJsonParse`'s `typeof` guard), then dispatch on the tool
name; unguarded argument reads (`args.path`, `args.command`, ...) may
throw when the decoded value is `null`, and a non-string name reaches the
`startsWith` call of the default branch, which throws. -/
def executeToolE (tb : ToolBackends) (tc : JVal) : Except String ToolResult := do
  let fn ← jsGetField tc "function"
  let argsV ← jsGetField fn "arguments"
  let args := match argsV with | .vstr s => safeJsonParse s | _ => JVal.vobj []
  match jsField fn "name" with
  | .vstr n =>
    if n = "view_file" then pure (viewFileCase tb args)
    else if n = "create_file" then do
      let p ← jsGetField args "path"
      let c ← jsGetField args "content"
      pure (tb.textEditorCreate p c)
    else if n = "str_replace_editor" then do
      let p ← jsGetField args "path"
      let o ← jsGetField args "old_str"
      let nw ← jsGetField args "new_str"
      let ra ← jsGetField args "replace_all"
      pure (tb.textEditorStrReplace p o nw ra)
    else if n = "bash" then do
      let c ← jsGetField args "command"
      pure (tb.bashExecute c)
    else if n = "create_todo_list" then do
      let t ← jsGetField args "todos"
      pure (tb.todoCreate t)
    else if n = "update_todo_list" then do
      let u ← jsGetField args "updates"
      pure (tb.todoUpdate u)
    else if n = "search" then pure (searchCase tb args)
    else if "mcp__".toList.isPrefixOf n.toList then pure (executeMCPTool tb tc)
    else pure ⟨false, none, some ("Unknown tool: " ++ n)⟩
  | .vnull => throw "Cannot read properties of null (reading 'startsWith')"
  | .vundef => throw "Cannot read properties of undefined (reading 'startsWith')"
  | _ => throw "toolCall.function.name.startsWith is not a function"

/-- `executeTool` (lines 763-841): the `try` body with its catch-all
converting any thrown message into a failed result. -/
def executeTool (tb : ToolBackends) (tc : JVal) : ToolResult :=
  match executeToolE tb tc with
  | .ok r => r
  | .error msg => ⟨false, none, some ("Tool execution error: " ++ msg)⟩

/-!
## Inline invocation fallback (`parseToolCallsFromContent`, src lines
572-634)

The regex `/```json\s*\n([\s\S]*?)\n```/g` anchors at a ```` ```json ````
tag; `\s*\n` greedily consumes whitespace and backtracks so that the
matched newline is the last one of the run, the lazy capture ends at the
first following ``` `\n` ``` + fence, and scanning resumes after the
closing fence.  Synthesised ids (`call_` + timestamp + random suffix)
come from the `genId` oracle, consumed once per *created* invocation.
-/

/-- Split at the first occurrence of a newline followed by a closing
fence; `none` when there is none (the lazy group finds no end, the match
attempt fails). -/
def splitAtNlFence : Nat → List Char → List Char → Option (List Char × List Char)
  | 0, _, _ => none
  | _ + 1, [], _ => none
  | fuel + 1, c :: rest, acc =>
    match c, rest with
    | '\n', '`' :: '`' :: '`' :: rest2 => some (acc.reverse, rest2)
    | _, _ => splitAtNlFence fuel rest (c :: acc)

/-- All captures of the fenced-block regex, left to right. -/
def fencedCaptures : Nat → List Char → List (List Char)
  | 0, _ => []
  | _ + 1, [] => []
  | fuel + 1, c :: rest =>
    if c = '`' ∧ ('`' :: '`' :: 'j' :: 's' :: 'o' :: 'n' :: []).isPrefixOf rest then
      let afterTag := rest.drop 6
      let wsRun := afterTag.takeWhile jsWsChar
      if wsRun.contains '\n' then
        let body := afterTag.drop (lastIdxOf wsRun '\n' + 1)
        match splitAtNlFence (body.length + 1) body [] with
        | some (cap, rest2) => cap :: fencedCaptures fuel rest2
        | none => fencedCaptures fuel rest
      else fencedCaptures fuel rest
    else fencedCaptures fuel rest

/-- Parse one candidate block: a JSON value with truthy `name` and
`arguments` becomes an invocation record, `arguments` stringified unless
already a string. -/
def tryMakeToolCall (id : String) (jsonContent : String) : Option JVal :=
  match jsonParse jsonContent with
  | .error _ => none
  | .ok parsed =>
    let nameV := jsField parsed "name"
    let argsV := jsField parsed "arguments"
    if truthy nameV ∧ truthy argsV then
      some (.vobj [("id", .vstr id), ("type", .vstr "function"),
        ("function", .vobj [("name", nameV),
          ("arguments",
            match argsV with
            | .vstr s => JVal.vstr s
            | v => JVal.vstr (jsonStringify v))])])
    else none

/-- Fold the captures into invocation records, consuming one id per
created record (invalid blocks are skipped). -/
def buildToolCalls (ids : Nat → String) : Nat → List (List Char) → List JVal
  | _, [] => []
  | i, cap :: rest =>
    match tryMakeToolCall (ids i) (jsTrim (String.mk cap)) with
    | some tc => tc :: buildToolCalls ids (i + 1) rest
    | none => buildToolCalls ids i rest

/-- `parseToolCallsFromContent`: fenced blocks first, then — when none
produced an invocation — the whole content parsed directly as one
invocation.  A falsy content returns `[]`; a truthy non-string content
makes `matchAll` throw, landing in the function's own catch which also
returns `[]`. -/
def parseToolCallsFromContent (ids : Nat → String) (content : JVal) : JVal :=
  match content with
  | .vstr s =>
    if s = "" then .varr []
    else
      let tcs := buildToolCalls ids 0 (fencedCaptures (s.toList.length + 1) s.toList)
      if tcs.isEmpty then
        match tryMakeToolCall (ids 0) s with
        | some tc => .varr [tc]
        | none => .varr []
      else .varr tcs
  | _ => .varr []

/-!
## Streaming agent loop (`processUserMessageStream`, src lines 317-570)

The generator's observable behaviour is a list of `AgentEvent`s: the
yielded chunks (with provenance — the limit notice, cancellation notice
and round-error message are distinct constructors, all projecting to
`content` chunks via `chunkOf`) interleaved with instrumentation events
recording each read of the abort flag (`checkedAbort`), each fragment
taken from the transport stream (`consumedFrag`) and each tool dispatch
(`executedTool`).

External inputs are oracles in `AgentEnv`: the per-round fragment stream
with an optional transport exception after its fragments
(`chatStream` — its retry loop is modelled separately by `chatLoop`),
the outcome of each `executeTool` dispatch (tool side effects are I/O;
`executeTool` itself is modelled above), the abort flag's value at each
read, the token counters (`token-counter.ts` is not among the provided
sources) and the id supply.
-/

inductive StreamingChunk where
  | content : String → StreamingChunk
  | toolCalls : JVal → StreamingChunk
  | toolResult : JVal → ToolResult → StreamingChunk
  | tokenCount : Nat → StreamingChunk
  | done : StreamingChunk

inductive AgentEvent where
  | contentEv : String → AgentEvent
  | tokenCountEv : Nat → AgentEvent
  | toolCallsEv : JVal → AgentEvent
  | toolResultEv : JVal → ToolResult → AgentEvent
  | cancelNoticeEv : AgentEvent
  | limitNoticeEv : AgentEvent
  | errorNoticeEv : String → AgentEvent
  | doneEv : AgentEvent
  | checkedAbort : Bool → AgentEvent
  | consumedFrag : AgentEvent
  | executedTool : AgentEvent

/-- Projection from the instrumented event list to the chunk sequence the
caller consumes. -/
def chunkOf : AgentEvent → Option StreamingChunk
  | .contentEv s => some (.content s)
  | .tokenCountEv n => some (.tokenCount n)
  | .toolCallsEv v => some (.toolCalls v)
  | .toolResultEv tc r => some (.toolResult tc r)
  | .cancelNoticeEv => some (.content "\n\n[Operation cancelled by user]")
  | .limitNoticeEv => some (.content
      "\n\nMaximum tool execution rounds reached. Stopping to prevent infinite loops.")
  | .errorNoticeEv m => some (.content m)
  | .doneEv => some (.done)
  | .checkedAbort _ => none
  | .consumedFrag => none
  | .executedTool => none

/-- One round's transport stream: the fragments `chatStream` yields (in
the converted `{choices:[{delta,...}]}` shape) and, optionally, an
exception it raises afterwards (e.g. retries exhausted). -/
structure RoundStream where
  frags : List JVal
  err : Option String

structure AgentEnv where
  rounds : Nat → RoundStream
  execToolO : Nat → JVal → ToolResult
  abortAt : Nat → Bool
  countMessageTokens : List OMsg → Nat
  estimateStreamingTokens : String → Nat
  countTokens : String → Nat
  genId : Nat → Nat → String

/-- `accumulatedMessage.tool_calls?.length > 0`: optional chaining turns a
missing value into `undefined`, whose comparison is false; the value is an
array whenever present. -/
def jsLenGtZero : JVal → Bool
  | .varr l => 0 < l.length
  | .vstr s => 0 < s.length
  | _ => false

/-- `!toolCalls || toolCalls.length === 0` (second disjunct). -/
def jsLenIsZero : JVal → Bool
  | .varr l => l.isEmpty
  | .vstr s => s = ""
  | _ => false

/-- `.some((tc) => tc.function?.name)` over the accumulated array. -/
def hasCompleteTool : JVal → Bool
  | .varr l => l.any (fun tc => truthy (jsField (jsField tc "function") "name"))
  | _ => false

/-- Mutable locals of the fragment loop. -/
structure FragState where
  accMsg : JVal
  accContent : String
  toolCallsYielded : Bool
  checks : Nat
  totalOutputTokens : Nat

/-- The `for await (const chunk of stream)` body (lines 386-442): abort
check before each fragment, `continue` on an empty `choices`, reduce,
first-complete-invocation yield, content yield with a live token count.
`none` means the generator returned after a cancellation notice. -/
def processFrags (env : AgentEnv) (inputTokens : Nat) :
    List JVal → FragState → List AgentEvent × Option FragState
  | [], fs => ([], some fs)
  | chunk :: rest, fs =>
    let observed := env.abortAt fs.checks
    let fs1 : FragState :=
      ⟨fs.accMsg, fs.accContent, fs.toolCallsYielded, fs.checks + 1,
        fs.totalOutputTokens⟩
    if observed then
      ([.checkedAbort true, .cancelNoticeEv, .doneEv], none)
    else
      let pre := [AgentEvent.checkedAbort false, AgentEvent.consumedFrag]
      let c0 := jsIndex (jsField chunk "choices") 0
      if !truthy c0 then
        let r := processFrags env inputTokens rest fs1
        (pre ++ r.1, r.2)
      else
        let accMsg2 := messageReducer fs1.accMsg chunk
        let tcs := jsField accMsg2 "tool_calls"
        let doYield := !fs1.toolCallsYielded && jsLenGtZero tcs && hasCompleteTool tcs
        let tcEvs := if doYield then [AgentEvent.toolCallsEv tcs] else []
        let yielded2 := fs1.toolCallsYielded || doYield
        let dContent := jsField (jsField c0 "delta") "content"
        if truthy dContent then
          let cstr := jsToStringCoerce dContent
          let accContent2 := fs1.accContent ++ cstr
          let outTok := env.estimateStreamingTokens accContent2 +
            (if truthy tcs then env.countTokens (jsonStringify tcs) else 0)
          let fs2 : FragState := ⟨accMsg2, accContent2, yielded2, fs1.checks, outTok⟩
          let r := processFrags env inputTokens rest fs2
          (pre ++ tcEvs ++
            [AgentEvent.contentEv cstr, AgentEvent.tokenCountEv (inputTokens + outTok)] ++ r.1,
            r.2)
        else
          let fs2 : FragState :=
            ⟨accMsg2, fs1.accContent, yielded2, fs1.checks, fs1.totalOutputTokens⟩
          let r := processFrags env inputTokens rest fs2
          (pre ++ tcEvs ++ r.1, r.2)

/-- Mutable locals of the tool-execution loop. -/
structure ExecState where
  msgs : List OMsg
  checks : Nat
  toolExecs : Nat

/-- The `for (const toolCall of toolCalls)` body (lines 479-517): abort
check before each dispatch, dispatch, `tool_result` yield, `tool` message
push.  `none` means the generator returned after a cancellation notice. -/
def execTools (env : AgentEnv) :
    List JVal → ExecState → List AgentEvent × Option ExecState
  | [], es => ([], some es)
  | tc :: rest, es =>
    let observed := env.abortAt es.checks
    let es1 : ExecState := ⟨es.msgs, es.checks + 1, es.toolExecs⟩
    if observed then
      ([.checkedAbort true, .cancelNoticeEv, .doneEv], none)
    else
      let result := env.execToolO es1.toolExecs tc
      let contentStr :=
        if result.success then
          match result.output with
          | some o => if o = "" then "Success" else o
          | none => "Success"
        else
          match result.error with
          | some e => if e = "" then "Error" else e
          | none => "Error"
      let es2 : ExecState :=
        ⟨es1.msgs ++ [⟨"tool", contentStr, none, some (jsField tc "id")⟩],
          es1.checks, es1.toolExecs + 1⟩
      let r := execTools env rest es2
      ([.checkedAbort false, .executedTool, .toolResultEv tc result] ++ r.1, r.2)

/-- Mutable locals of the round loop. -/
structure LoopState where
  msgs : List OMsg
  toolRounds : Nat
  checks : Nat
  toolExecs : Nat
  inputTokens : Nat
  totalOutputTokens : Nat

inductive RoundCtl where
  | ret : LoopState → RoundCtl
  | brk : LoopState → RoundCtl
  | cont : LoopState → RoundCtl

/-- One iteration of the `while (toolRounds < maxToolRounds)` body (lines
356-532), entered with the condition known to hold: abort check, stream
consumption, the transport-exception catch (which re-checks the abort
flag and otherwise emits the single round-error message and `done`),
invocation detection with the inline fallback, the assistant push, and
either the tool branch (ending in a fresh input-token count) or the
break.  The source increments `toolRounds` on entering the tool branch;
the counter is not read again before the iteration ends, so the `.cont`
transition's caller performs the increment. -/
def runRound (env : AgentEnv) (st : LoopState) : List AgentEvent × RoundCtl :=
  let observed := env.abortAt st.checks
  let st1 : LoopState :=
    ⟨st.msgs, st.toolRounds, st.checks + 1, st.toolExecs, st.inputTokens,
      st.totalOutputTokens⟩
  if observed then
    ([.checkedAbort true, .cancelNoticeEv, .doneEv], .ret st1)
  else
    let rs := env.rounds st1.toolRounds
    let fs0 : FragState := ⟨.vobj [], "", false, st1.checks, st1.totalOutputTokens⟩
    let fr := processFrags env st1.inputTokens rs.frags fs0
    let evs0 := AgentEvent.checkedAbort false :: fr.1
    match fr.2 with
    | none => (evs0, .ret st1)
    | some fs1 =>
      match rs.err with
      | some e =>
        let obs2 := env.abortAt fs1.checks
        if obs2 then
          (evs0 ++ [.checkedAbort true, .cancelNoticeEv, .doneEv],
            .ret ⟨st1.msgs, st1.toolRounds, fs1.checks + 1, st1.toolExecs,
              st1.inputTokens, fs1.totalOutputTokens⟩)
        else
          (evs0 ++ [.checkedAbort false,
            .errorNoticeEv ("Sorry, I encountered an error: " ++ e), .doneEv],
            .ret ⟨st1.msgs, st1.toolRounds, fs1.checks + 1, st1.toolExecs,
              st1.inputTokens, fs1.totalOutputTokens⟩)
      | none =>
        let tcRaw := jsField fs1.accMsg "tool_calls"
        let contentV := jsField fs1.accMsg "content"
        let toolCalls :=
          if !truthy tcRaw || jsLenIsZero tcRaw then
            parseToolCallsFromContent (env.genId st1.toolRounds) contentV
          else tcRaw
        let contentStr := if truthy contentV then jsToStringCoerce contentV else ""
        let msgs2 := st1.msgs ++ [⟨"assistant", contentStr, some toolCalls, none⟩]
        if jsLenGtZero toolCalls then
          let tcYieldEvs :=
            if fs1.toolCallsYielded then [] else [AgentEvent.toolCallsEv toolCalls]
          let es0 : ExecState := ⟨msgs2, fs1.checks, st1.toolExecs⟩
          let er := execTools env
            (match toolCalls with | .varr l => l | _ => []) es0
          match er.2 with
          | none =>
            (evs0 ++ tcYieldEvs ++ er.1,
              .ret ⟨msgs2, st1.toolRounds, st1.checks, st1.toolExecs,
                st1.inputTokens, fs1.totalOutputTokens⟩)
          | some es1 =>
            let newInput := env.countMessageTokens es1.msgs
            (evs0 ++ tcYieldEvs ++ er.1 ++
              [AgentEvent.tokenCountEv (newInput + fs1.totalOutputTokens)],
              .cont ⟨es1.msgs, st1.toolRounds, es1.checks, es1.toolExecs,
                newInput, fs1.totalOutputTokens⟩)
        else
          (evs0, .brk ⟨msgs2, st1.toolRounds, fs1.checks, st1.toolExecs,
            st1.inputTokens, fs1.totalOutputTokens⟩)

/-- The `while (toolRounds < maxToolRounds)` loop with `maxToolRounds =
50`.  The returned flag is true when the generator already returned from
inside the loop (cancellation or round error, `done` already emitted). -/
def runLoop (env : AgentEnv) (st : LoopState) :
    List AgentEvent × LoopState × Bool :=
  if h : st.toolRounds < 50 then
    match runRound env st with
    | (evs, .ret st2) => (evs, st2, true)
    | (evs, .brk st2) => (evs, st2, false)
    | (evs, .cont st2) =>
      let r := runLoop env
        ⟨st2.msgs, st.toolRounds + 1, st2.checks, st2.toolExecs,
          st2.inputTokens, st2.totalOutputTokens⟩
      (evs ++ r.1, r.2.1, r.2.2)
  else ([], st, false)
termination_by 50 - st.toolRounds
decreasing_by simp; omega

/-- `processUserMessageStream` (lines 317-570): push the user message,
compact when the estimate exceeds the threshold, emit the initial token
count, run the round loop, then — unless the generator already returned —
the limit notice when the cap was reached, and the final `done`. -/
def processUserMessageStream (env : AgentEnv) (msgs0 : List OMsg)
    (message : String) : List AgentEvent × LoopState :=
  let msgs1 := msgs0 ++ [⟨"user", message, none, none⟩]
  let t0 := env.countMessageTokens msgs1
  let msgs2 := compactIfNeeded t0 msgs1
  let inputTokens := if 15000 < t0 then env.countMessageTokens msgs2 else t0
  let st0 : LoopState := ⟨msgs2, 0, 0, 0, inputTokens, 0⟩
  let r := runLoop env st0
  if r.2.2 then (AgentEvent.tokenCountEv inputTokens :: r.1, r.2.1)
  else
    (AgentEvent.tokenCountEv inputTokens :: r.1 ++
      (if 50 ≤ r.2.1.toolRounds then [AgentEvent.limitNoticeEv] else []) ++
      [AgentEvent.doneEv], r.2.1)

/-- Whether a value is a key/value mapping (a JavaScript object). -/
def jsIsObj : JVal → Bool
  | .vobj _ => true
  | _ => false

/-- Keys at even positions of the token list (the positional pairing's
prospective keys). -/
def evenIdxKeys : List String → List String
  | [] => []
  | [_] => []
  | k :: _ :: rest => k :: evenIdxKeys rest

/-- The `i`-th token (`""` out of range; always used in range). -/
def nthTok (toks : List String) (i : Nat) : String := (toks.drop i).headD ""

/-!
## Loop claim infrastructure
-/

/-- Events that are neither a notice (limit/cancellation/error) nor
`done`. -/
def plainEv : AgentEvent → Bool
  | .limitNoticeEv => false
  | .cancelNoticeEv => false
  | .errorNoticeEv _ => false
  | .doneEv => false
  | _ => true

def isLimitNotice : AgentEvent → Bool
  | .limitNoticeEv => true
  | _ => false

def isDoneEv : AgentEvent → Bool
  | .doneEv => true
  | _ => false

def isErrorNotice : AgentEvent → Bool
  | .errorNoticeEv _ => true
  | _ => false

/-- The message accumulated over a round's fragments, skipping (as the
loop does) any chunk without a first choice. -/
def accumulateFrags : List JVal → JVal → JVal
  | [], acc => acc
  | chunk :: rest, acc =>
    if !truthy (jsIndex (jsField chunk "choices") 0) then
      accumulateFrags rest acc
    else accumulateFrags rest (messageReducer acc chunk)

/-- The invocation list the loop derives for round `r`: the accumulated
`tool_calls`, or the inline-content fallback when absent or empty. -/
def roundToolCallsOf (env : AgentEnv) (r : Nat) : JVal :=
  let acc := accumulateFrags (env.rounds r).frags (.vobj [])
  let tcRaw := jsField acc "tool_calls"
  if !truthy tcRaw || jsLenIsZero tcRaw then
    parseToolCallsFromContent (env.genId r) (jsField acc "content")
  else tcRaw

/-- A streamed fragment carrying one complete `bash` invocation, used to
exercise the loop at its round cap. -/
def c1Call : JVal :=
  .vobj [("function", .vobj [("name", .vstr "bash"),
    ("arguments", .vstr "\x7b\x7d")])]

def c1Delta : JVal := .vobj [("tool_calls", .varr [c1Call])]

def c1Frag : JVal :=
  .vobj [("choices", .varr [.vobj [("delta", c1Delta)]])]

/-- An environment whose every round streams `c1Frag` with no transport
error and whose abort flag is never set. -/
def c1Env : AgentEnv :=
  ⟨fun _ => ⟨[c1Frag], none⟩, fun _ _ => ⟨true, some "ok", none⟩,
    fun _ => false, fun _ => 0, fun _ => 0, fun _ => 0, fun _ _ => "id"⟩

/-- An environment whose very first round's stream raises `boom`. -/
def c6Env : AgentEnv :=
  ⟨fun _ => ⟨[], some "boom"⟩, fun _ _ => ⟨true, some "ok", none⟩,
    fun _ => false, fun _ => 0, fun _ => 0, fun _ => 0, fun _ _ => "id"⟩

/-!
## Cancellation (C8)
-/

/-- Event that is not an observation of a set abort flag. -/
def notAbortTrue : AgentEvent → Bool
  | .checkedAbort true => false
  | _ => true

/-- No checkpoint in the list observed a set abort flag. -/
def noAbortTrue (evs : List AgentEvent) : Bool := evs.all notAbortTrue

/-- What the generator emits upon observing the abort flag set: the
cancellation notice and the final `done`. -/
def cancelTriple : List AgentEvent :=
  [.checkedAbort true, .cancelNoticeEv, .doneEv]

/-- Events recording an action that must be guarded by a flag check:
consuming a stream fragment or executing a tool. -/
def needsCheck : AgentEvent → Bool
  | .consumedFrag => true
  | .executedTool => true
  | _ => false

/-- A checkpoint that observed the flag clear. -/
def isCheckOk : AgentEvent → Bool
  | .checkedAbort false => true
  | _ => false

/-- Every fragment consumption and tool execution is immediately preceded
by a checkpoint that observed the flag clear; the parameter says whether
the previous event was such a checkpoint. -/
def noStrayFrom : Bool → List AgentEvent → Bool
  | _, [] => true
  | p, x :: rest =>
    if needsCheck x then p && noStrayFrom false rest
    else noStrayFrom (isCheckOk x) rest

/-- No fragment is consumed and no tool executed without an immediately
preceding clear-flag checkpoint. -/
def noStray (evs : List AgentEvent) : Bool := noStrayFrom false evs

/-- An observation of a set abort flag. -/
def isAbortTrue : AgentEvent → Bool
  | .checkedAbort true => true
  | _ => false

/-- Exactly the cancellation notice and `done` remain. -/
def endsCancel : List AgentEvent → Bool
  | [.cancelNoticeEv, .doneEv] => true
  | _ => false

/-- After any checkpoint that observed the flag set, the remaining stream
is exactly the cancellation notice followed by `done`. -/
def cancelImmediate : List AgentEvent → Bool
  | [] => true
  | x :: rest => if isAbortTrue x then endsCancel rest else cancelImmediate rest

/-!
## Exception-aware aggregator and loop

The reducer definitions above (`delIndexProp`, `stepField`, `mergeArr`,
`reduceAny`) are total: they treat the TypeError that JavaScript raises on
`Object.entries(null)` (reached when a `null` delta value meets an
object-typed accumulator slot, since `typeof null === "object"`, or when a
`null`/`undefined` fragment element is merged positionally) and on
`delete arr.index` over a `null`/`undefined` element as a zero-entry merge
or a no-op.  The definitions below model those throws: the reducer returns
`Except`, and the loop variants thread the exception into the round's
`catch` exactly as a stream error.  Claims whose content is the aggregated
value or the round-cap path are stated over these exception-aware
definitions; the claims stated over the total loop (the error-notice and
cancellation claims) are insensitive to the difference, as a reducer throw
surfaces there like any other round exception.
-/

/-- The TypeError text of `Object.entries(null)` and of `delete el.index`
on a `null`/`undefined` base. -/
def nullConvErr : String := "Cannot convert undefined or null to object"

/-- `delete arr.index` on one element of a first-assigned array: object
elements lose their `index` property, primitives are untouched, and a
`null`/`undefined` base throws. -/
def delIndexPropE : JVal → Except String JVal
  | .vnull => .error nullConvErr
  | .vundef => .error nullConvErr
  | .vobj fields => .ok (.vobj (fields.filter (fun p => p.1 ≠ "index")))
  | v => .ok v

/-- The `for (const arr of acc[key]) delete arr.index` loop: left to
right, stopping at the first throwing element. -/
def delIndexElemsE : List JVal → Except String (List JVal)
  | [] => .ok []
  | x :: xs =>
    match delIndexPropE x with
    | .error m => .error m
    | .ok y =>
      match delIndexElemsE xs with
      | .error m => .error m
      | .ok ys => .ok (y :: ys)

/-- First-assignment cleanup: when the assigned value is an array, delete
the `index` property of each element (throwing on `null`/`undefined`
elements); other values are untouched. -/
def cleanIndexE : JVal → Except String JVal
  | .varr xs =>
    match delIndexElemsE xs with
    | .error m => .error m
    | .ok ys => .ok (.varr ys)
  | v => .ok v

mutual

/-- One `for (const [key, value] of Object.entries(delta))` iteration per
list element, threading the accumulator's fields and propagating a
throw. -/
def reduceObjE (accF : List (String × JVal)) :
    List (String × JVal) → Except String (List (String × JVal))
  | [] => .ok accF
  | (k, v) :: rest =>
    match stepFieldE accF k v with
    | .error m => .error m
    | .ok accF2 => reduceObjE accF2 rest
termination_by ds => jsizeFields ds
decreasing_by all_goals (simp [jsizeFields] <;> omega)

/-- The branch chain of the source's `reduce` for one delta entry, with
the throws modelled: a missing/`undefined`/`null` accumulator slot is
assigned the value after the `index` cleanup (which throws on a `null`
array element); string meets string appends; array meets array merges
positionally; an object-typed accumulator slot meeting an object-typed
value recurses — and `typeof null === "object"`, so a `null` value routed
there reaches `Object.entries(null)`, which throws; any other combination
leaves the accumulator unchanged. -/
def stepFieldE (accF : List (String × JVal)) (k : String) (v : JVal) :
    Except String (List (String × JVal)) :=
  match jsLookup accF k with
  | none =>
    match cleanIndexE v with
    | .error m => .error m
    | .ok w => .ok (jsSet accF k w)
  | some cur =>
    match cur, v with
    | .vundef, _ =>
      match cleanIndexE v with
      | .error m => .error m
      | .ok w => .ok (jsSet accF k w)
    | .vnull, _ =>
      match cleanIndexE v with
      | .error m => .error m
      | .ok w => .ok (jsSet accF k w)
    | .vstr a, .vstr b => .ok (jsSet accF k (.vstr (a ++ b)))
    | .varr xs, .varr ys =>
      match mergeArrE xs ys with
      | .error m => .error m
      | .ok zs => .ok (jsSet accF k (.varr zs))
    | .vobj fs, .vobj ds =>
      match reduceObjE fs ds with
      | .error m => .error m
      | .ok gs => .ok (jsSet accF k (.vobj gs))
    | .vobj fs, .varr ys =>
      match reduceObjE fs (arrEntries 0 ys) with
      | .error m => .error m
      | .ok gs => .ok (jsSet accF k (.vobj gs))
    | .vobj _, .vnull => .error nullConvErr
    | .varr xs, .vobj ds =>
      match reduceObjE (arrEntries 0 xs) ds with
      | .error m => .error m
      | .ok gs => .ok (jsSet accF k (.vobj gs))
    | .varr _, .vnull => .error nullConvErr
    | _, _ => .ok accF
termination_by jsize v
decreasing_by all_goals (simp [jsize, jsizeFields, jsizeElems, jsizeFields_arrEntries] <;> omega)

/-- Positional array merge with the throw modelled: element `i` of the
fragment merges into element `i` of the accumulator (a falsy slot first
replaced by `\x7b\x7d`); a `null`/`undefined` fragment element reaches
`Object.entries` inside the recursive `reduce` and throws. -/
def mergeArrE : List JVal → List JVal → Except String (List JVal)
  | xs, [] => .ok xs
  | [], y :: ys =>
    match reduceAnyE (if truthy .vundef then .vundef else .vobj []) y with
    | .error m => .error m
    | .ok z =>
      match mergeArrE [] ys with
      | .error m => .error m
      | .ok zs => .ok (z :: zs)
  | x :: xs, y :: ys =>
    match reduceAnyE (if truthy x then x else .vobj []) y with
    | .error m => .error m
    | .ok z =>
      match mergeArrE xs ys with
      | .error m => .error m
      | .ok zs => .ok (z :: zs)
termination_by xs ys => jsizeElems ys
decreasing_by all_goals (simp [jsizeElems] <;> omega)

/-- The source's `reduce(acc, delta)` for an arbitrary delta:
`Object.entries(null)` and `Object.entries(undefined)` throw; strings
spread to one-character entries; numbers and booleans have no entries. -/
def reduceAnyE (acc : JVal) : JVal → Except String JVal
  | .vobj ds =>
    match reduceObjE (jsEntries acc) ds with
    | .error m => .error m
    | .ok gs => .ok (.vobj gs)
  | .varr ys =>
    match reduceObjE (jsEntries acc) (arrEntries 0 ys) with
    | .error m => .error m
    | .ok gs => .ok (.vobj gs)
  | .vstr s => .ok (.vobj ((strEntries 0 s.toList).foldl
      (fun f p => stepScalar f p.1 p.2)
      (jsEntries acc)))
  | .vnull => .error nullConvErr
  | .vundef => .error nullConvErr
  | _ => .ok (.vobj (jsEntries acc))
termination_by y => jsize y
decreasing_by all_goals (simp [jsize, jsizeFields, jsizeElems, jsizeFields_arrEntries] <;> omega)

end

/-- `messageReducer(previous, item)` with the reducer's TypeError
modelled.  The top-level delta is guarded by `|| \x7b\x7d`, so only nested
`null`s can throw; the unguarded `[0]` access is reachable only behind the
call sites' `if (!chunk.choices?.[0]) continue` guard, as for the total
variant. -/
def messageReducerE (previous item : JVal) : Except String JVal :=
  let delta := jsField (jsIndex (jsField item "choices") 0) "delta"
  reduceAnyE previous (if truthy delta then delta else .vobj [])

/-- The message aggregated over a round's fragments (skipping chunks
without a first choice), or the TypeError the aggregation throws. -/
def accumulateFragsE : List JVal → JVal → Except String JVal
  | [], acc => .ok acc
  | chunk :: rest, acc =>
    if !truthy (jsIndex (jsField chunk "choices") 0) then
      accumulateFragsE rest acc
    else
      match messageReducerE acc chunk with
      | .error m => .error m
      | .ok acc2 => accumulateFragsE rest acc2

/-- The invocation list the loop derives for round `r`: the accumulated
`tool_calls`, or the inline-content fallback when absent or empty.  A
round whose aggregation throws derives no invocation list (the round is
abandoned with the error notice); `undefined` stands for that here, so a
hypothesis that this value is a non-empty list also demands the round
aggregate cleanly. -/
def roundToolCallsOfE (env : AgentEnv) (r : Nat) : JVal :=
  match accumulateFragsE (env.rounds r).frags (.vobj []) with
  | .error _ => .vundef
  | .ok acc =>
    let tcRaw := jsField acc "tool_calls"
    if !truthy tcRaw || jsLenIsZero tcRaw then
      parseToolCallsFromContent (env.genId r) (jsField acc "content")
    else tcRaw

/-- Outcome of the fragment loop: completed, returned after a
cancellation notice, or aborted by a reducer throw (carrying the locals
at the throw for the round's `catch`). -/
inductive FragOut where
  | done : FragState → FragOut
  | cancelled : FragOut
  | thrown : String → FragState → FragOut

/-- The `for await (const chunk of stream)` body with the reducer's
TypeError propagating out of the loop (the abort check and the fragment
consumption precede the reduce, so their events stay). -/
def processFragsE (env : AgentEnv) (inputTokens : Nat) :
    List JVal → FragState → List AgentEvent × FragOut
  | [], fs => ([], .done fs)
  | chunk :: rest, fs =>
    let observed := env.abortAt fs.checks
    let fs1 : FragState :=
      ⟨fs.accMsg, fs.accContent, fs.toolCallsYielded, fs.checks + 1,
        fs.totalOutputTokens⟩
    if observed then
      ([.checkedAbort true, .cancelNoticeEv, .doneEv], .cancelled)
    else
      let pre := [AgentEvent.checkedAbort false, AgentEvent.consumedFrag]
      let c0 := jsIndex (jsField chunk "choices") 0
      if !truthy c0 then
        let r := processFragsE env inputTokens rest fs1
        (pre ++ r.1, r.2)
      else
        match messageReducerE fs1.accMsg chunk with
        | .error m => (pre, .thrown m fs1)
        | .ok accMsg2 =>
          let tcs := jsField accMsg2 "tool_calls"
          let doYield := !fs1.toolCallsYielded && jsLenGtZero tcs && hasCompleteTool tcs
          let tcEvs := if doYield then [AgentEvent.toolCallsEv tcs] else []
          let yielded2 := fs1.toolCallsYielded || doYield
          let dContent := jsField (jsField c0 "delta") "content"
          if truthy dContent then
            let cstr := jsToStringCoerce dContent
            let accContent2 := fs1.accContent ++ cstr
            let outTok := env.estimateStreamingTokens accContent2 +
              (if truthy tcs then env.countTokens (jsonStringify tcs) else 0)
            let fs2 : FragState := ⟨accMsg2, accContent2, yielded2, fs1.checks, outTok⟩
            let r := processFragsE env inputTokens rest fs2
            (pre ++ tcEvs ++
              [AgentEvent.contentEv cstr, AgentEvent.tokenCountEv (inputTokens + outTok)] ++ r.1,
              r.2)
          else
            let fs2 : FragState :=
              ⟨accMsg2, fs1.accContent, yielded2, fs1.checks, fs1.totalOutputTokens⟩
            let r := processFragsE env inputTokens rest fs2
            (pre ++ tcEvs ++ r.1, r.2)

/-- One round body over the exception-aware fragment loop: a reducer
throw lands in the same `catch` as a stream error (flag re-check, then
the cancellation notice or the single round-error message and `done`). -/
def runRoundE (env : AgentEnv) (st : LoopState) : List AgentEvent × RoundCtl :=
  let observed := env.abortAt st.checks
  let st1 : LoopState :=
    ⟨st.msgs, st.toolRounds, st.checks + 1, st.toolExecs, st.inputTokens,
      st.totalOutputTokens⟩
  if observed then
    ([.checkedAbort true, .cancelNoticeEv, .doneEv], .ret st1)
  else
    let rs := env.rounds st1.toolRounds
    let fs0 : FragState := ⟨.vobj [], "", false, st1.checks, st1.totalOutputTokens⟩
    let fr := processFragsE env st1.inputTokens rs.frags fs0
    let evs0 := AgentEvent.checkedAbort false :: fr.1
    match fr.2 with
    | .cancelled => (evs0, .ret st1)
    | .thrown m fsx =>
      let obs2 := env.abortAt fsx.checks
      if obs2 then
        (evs0 ++ [.checkedAbort true, .cancelNoticeEv, .doneEv],
          .ret ⟨st1.msgs, st1.toolRounds, fsx.checks + 1, st1.toolExecs,
            st1.inputTokens, fsx.totalOutputTokens⟩)
      else
        (evs0 ++ [.checkedAbort false,
          .errorNoticeEv ("Sorry, I encountered an error: " ++ m), .doneEv],
          .ret ⟨st1.msgs, st1.toolRounds, fsx.checks + 1, st1.toolExecs,
            st1.inputTokens, fsx.totalOutputTokens⟩)
    | .done fs1 =>
      match rs.err with
      | some e =>
        let obs2 := env.abortAt fs1.checks
        if obs2 then
          (evs0 ++ [.checkedAbort true, .cancelNoticeEv, .doneEv],
            .ret ⟨st1.msgs, st1.toolRounds, fs1.checks + 1, st1.toolExecs,
              st1.inputTokens, fs1.totalOutputTokens⟩)
        else
          (evs0 ++ [.checkedAbort false,
            .errorNoticeEv ("Sorry, I encountered an error: " ++ e), .doneEv],
            .ret ⟨st1.msgs, st1.toolRounds, fs1.checks + 1, st1.toolExecs,
              st1.inputTokens, fs1.totalOutputTokens⟩)
      | none =>
        let tcRaw := jsField fs1.accMsg "tool_calls"
        let contentV := jsField fs1.accMsg "content"
        let toolCalls :=
          if !truthy tcRaw || jsLenIsZero tcRaw then
            parseToolCallsFromContent (env.genId st1.toolRounds) contentV
          else tcRaw
        let contentStr := if truthy contentV then jsToStringCoerce contentV else ""
        let msgs2 := st1.msgs ++ [⟨"assistant", contentStr, some toolCalls, none⟩]
        if jsLenGtZero toolCalls then
          let tcYieldEvs :=
            if fs1.toolCallsYielded then [] else [AgentEvent.toolCallsEv toolCalls]
          let es0 : ExecState := ⟨msgs2, fs1.checks, st1.toolExecs⟩
          let er := execTools env
            (match toolCalls with | .varr l => l | _ => []) es0
          match er.2 with
          | none =>
            (evs0 ++ tcYieldEvs ++ er.1,
              .ret ⟨msgs2, st1.toolRounds, st1.checks, st1.toolExecs,
                st1.inputTokens, fs1.totalOutputTokens⟩)
          | some es1 =>
            let newInput := env.countMessageTokens es1.msgs
            (evs0 ++ tcYieldEvs ++ er.1 ++
              [AgentEvent.tokenCountEv (newInput + fs1.totalOutputTokens)],
              .cont ⟨es1.msgs, st1.toolRounds, es1.checks, es1.toolExecs,
                newInput, fs1.totalOutputTokens⟩)
        else
          (evs0, .brk ⟨msgs2, st1.toolRounds, fs1.checks, st1.toolExecs,
            st1.inputTokens, fs1.totalOutputTokens⟩)

/-- The round loop over the exception-aware round body. -/
def runLoopE (env : AgentEnv) (st : LoopState) :
    List AgentEvent × LoopState × Bool :=
  if h : st.toolRounds < 50 then
    match runRoundE env st with
    | (evs, .ret st2) => (evs, st2, true)
    | (evs, .brk st2) => (evs, st2, false)
    | (evs, .cont st2) =>
      let r := runLoopE env
        ⟨st2.msgs, st.toolRounds + 1, st2.checks, st2.toolExecs,
          st2.inputTokens, st2.totalOutputTokens⟩
      (evs ++ r.1, r.2.1, r.2.2)
  else ([], st, false)
termination_by 50 - st.toolRounds
decreasing_by simp; omega

/-- `processUserMessageStream` over the exception-aware loop. -/
def processUserMessageStreamE (env : AgentEnv) (msgs0 : List OMsg)
    (message : String) : List AgentEvent × LoopState :=
  let msgs1 := msgs0 ++ [⟨"user", message, none, none⟩]
  let t0 := env.countMessageTokens msgs1
  let msgs2 := compactIfNeeded t0 msgs1
  let inputTokens := if 15000 < t0 then env.countMessageTokens msgs2 else t0
  let st0 : LoopState := ⟨msgs2, 0, 0, 0, inputTokens, 0⟩
  let r := runLoopE env st0
  if r.2.2 then (AgentEvent.tokenCountEv inputTokens :: r.1, r.2.1)
  else
    (AgentEvent.tokenCountEv inputTokens :: r.1 ++
      (if 50 ≤ r.2.1.toolRounds then [AgentEvent.limitNoticeEv] else []) ++
      [AgentEvent.doneEv], r.2.1)

/-- A fragment whose delta carries `tool_calls: [null]`: merging it makes
the reducer throw. -/
def c1PoisonFrag : JVal :=
  .vobj [("choices", .varr [.vobj [("delta",
    .vobj [("tool_calls", .varr [.vnull])])]])]

/-- An environment whose every round streams a fragment carrying a
complete `bash` invocation and then the poisoned fragment: the model
response carries tool invocations in every round, yet aggregation
throws. -/
def c1BadEnv : AgentEnv :=
  ⟨fun _ => ⟨[c1Frag, c1PoisonFrag], none⟩, fun _ _ => ⟨true, some "ok", none⟩,
    fun _ => false, fun _ => 0, fun _ => 0, fun _ => 0, fun _ _ => "id"⟩

/-!
# Claims
-/

/-- C4: for every message log with more than 10 messages on which
compaction is triggered (token estimate above the 15,000 threshold), the
post-compaction log is message 0 unchanged, one synthetic assistant
summary message, then the last 6 pre-compaction messages verbatim; the
result always has 8 messages (so a 12-message log compacts to exactly 8),
the total count strictly decreases, and the first (system) message is
never removed. -/
theorem compaction_invariant_c4 (msgs : List OMsg) (est : Nat)
    (hlen : 10 < msgs.length) (htok : 15000 < est) :
    ∃ summary : OMsg, summary.role = "assistant" ∧
      compactIfNeeded est msgs =
        msgs.take 1 ++ summary :: msgs.drop (msgs.length - 6) ∧
      (compactIfNeeded est msgs).length = 8 ∧
      (compactIfNeeded est msgs).length < msgs.length ∧
      (compactIfNeeded est msgs).head? = msgs.head? := by
  have hne : msgs ≠ [] := by
    intro h
    rw [h] at hlen
    simp at hlen
  have hmidlen : ((msgs.drop 1).take (msgs.length - 7)).length = msgs.length - 7 := by
    simp [List.length_take, List.length_drop]
    omega
  have hmid : ¬ ((msgs.drop 1).take (msgs.length - 7)).length = 0 := by
    rw [hmidlen]
    omega
  have hc : compactIfNeeded est msgs =
      msgs.take 1 ++
        (⟨"assistant",
          "[Context Summary] Previous conversation included:\n" ++
            strTake (joinLines ((((msgs.drop 1).take (msgs.length - 7)).map
              renderForSummary).filter (fun s => s ≠ ""))) 1000 ++ "...",
          none, none⟩ : OMsg) :: msgs.drop (msgs.length - 6) := by
    rw [compactIfNeeded, if_pos htok, summarizeContext, if_neg (by omega)]
    rw [if_neg hmid]
  refine ⟨_, rfl, hc, ?_, ?_, ?_⟩
  · rw [hc]
    simp [List.length_take, List.length_drop]
    omega
  · rw [hc]
    simp [List.length_take, List.length_drop]
    omega
  · rw [hc]
    cases msgs with
    | nil => exact absurd rfl hne
    | cons m rest => simp

/-- Witness for C4 at a concrete 12-message log and estimate 15001. -/
theorem compaction_invariant_c4_witness :
    ∃ summary : OMsg, summary.role = "assistant" ∧
      compactIfNeeded 15001 (List.replicate 12 (⟨"user", "m", none, none⟩ : OMsg)) =
        (List.replicate 12 (⟨"user", "m", none, none⟩ : OMsg)).take 1 ++
          summary :: (List.replicate 12 (⟨"user", "m", none, none⟩ : OMsg)).drop 6 ∧
      (compactIfNeeded 15001 (List.replicate 12 (⟨"user", "m", none, none⟩ : OMsg))).length = 8 ∧
      (compactIfNeeded 15001 (List.replicate 12 (⟨"user", "m", none, none⟩ : OMsg))).length < 12 ∧
      (compactIfNeeded 15001 (List.replicate 12 (⟨"user", "m", none, none⟩ : OMsg))).head? =
        (List.replicate 12 (⟨"user", "m", none, none⟩ : OMsg)).head? := by
  have h := compaction_invariant_c4
    (List.replicate 12 (⟨"user", "m", none, none⟩ : OMsg)) 15001
    (by simp) (by omega)
  simpa using h

/-- Helper: the retry loop performs at most `rc + fuel` attempts. -/
theorem chatLoop_made_le (attempts : Nat → Attempt) (clock : Nat → String)
    (payload : ChatPayload) :
    ∀ (fuel rc : Nat) (led : Option LastErrorDetails) (delays : List Nat),
    (chatLoop attempts clock payload fuel rc led delays).attemptsMade ≤ rc + fuel := by
  intro fuel
  induction fuel with
  | zero =>
    intro rc led delays
    simp [chatLoop]
  | succ n ih =>
    intro rc led delays
    rw [chatLoop]
    cases hA : attempts rc with
    | success r => simp <;> omega
    | failure e =>
      simp only []
      split
      · exact le_trans (ih (rc + 1) _ _) (by omega)
      · simp <;> omega

/-- Helper: the accumulated (reversed) delay list stays a prefix of
`[1000, 2000, 4000]`. -/
theorem chatLoop_delays (attempts : Nat → Attempt) (clock : Nat → String)
    (payload : ChatPayload) :
    ∀ (fuel rc : Nat) (led : Option LastErrorDetails) (delays : List Nat),
    delays.reverse = [1000, 2000, 4000].take rc →
    (chatLoop attempts clock payload fuel rc led delays).delaysMs <+:
      [1000, 2000, 4000] := by
  intro fuel
  induction fuel with
  | zero =>
    intro rc led delays hd
    simp [chatLoop, hd]
    exact (List.take_prefix _ _)
  | succ n ih =>
    intro rc led delays hd
    rw [chatLoop]
    cases hA : attempts rc with
    | success r =>
      simp [hd]
      exact (List.take_prefix _ _)
    | failure e =>
      simp only []
      split
      · rename_i hcond
        apply ih (rc + 1)
        have hrc : rc ≤ 2 := by omega
        simp [hd]
        interval_cases rc <;> rfl
      · simp [hd]
        exact (List.take_prefix _ _)

/-- C3: the transport's `chat` makes at most 4 attempts, its backoff
delays forming a prefix of 1s, 2s, 4s; failing with 503 three times and
then succeeding returns the success (after delays exactly 1s, 2s, 4s);
failing with 404 (a non-connection client error) throws immediately after
a single attempt with no delay; and four retryable failures exhaust the
budget and throw the message composed from the last failure. -/
theorem chat_retry_c3 (cm : String) (msgs : List OMsg)
    (tools : Option (List OTool)) (ma : Option String) (clock : Nat → String)
    (led0 : Option LastErrorDetails) :
    (∀ attempts,
      (chat cm msgs tools ma attempts clock led0).attemptsMade ≤ 4 ∧
      (chat cm msgs tools ma attempts clock led0).delaysMs <+: [1000, 2000, 4000]) ∧
    (∀ attempts (e : HttpFailure) (r : JVal), e.status = some 503 →
      (∀ k, k < 3 → attempts k = .failure e) → attempts 3 = .success r →
      (chat cm msgs tools ma attempts clock led0).result = .ok r ∧
      (chat cm msgs tools ma attempts clock led0).delaysMs = [1000, 2000, 4000] ∧
      (chat cm msgs tools ma attempts clock led0).attemptsMade = 4) ∧
    (∀ attempts (e : HttpFailure), e.status = some 404 → e.code = none →
      attempts 0 = .failure e →
      (chat cm msgs tools ma attempts clock led0).result =
        .error (chatErrorMessage e) ∧
      (chat cm msgs tools ma attempts clock led0).attemptsMade = 1 ∧
      (chat cm msgs tools ma attempts clock led0).delaysMs = []) ∧
    (∀ attempts (es : Nat → HttpFailure),
      (∀ k, k ≤ 3 → attempts k = .failure (es k)) →
      (∀ k, isRetryable (es k) = true) →
      (chat cm msgs tools ma attempts clock led0).result =
        .error (chatErrorMessage (es 3)) ∧
      (chat cm msgs tools ma attempts clock led0).attemptsMade = 4) := by
  refine ⟨?_, ?_, ?_, ?_⟩
  · intro attempts
    constructor
    · exact chatLoop_made_le attempts clock _ 4 0 led0 []
    · exact chatLoop_delays attempts clock _ 4 0 led0 [] (by simp)
  · intro attempts e r hst hf hs
    have h0 := hf 0 (by omega)
    have h1 := hf 1 (by omega)
    have h2 := hf 2 (by omega)
    have hretry : isRetryable e = true := by simp [isRetryable, hst]
    refine ⟨?_, ?_, ?_⟩ <;>
      simp [chat, chatLoop, h0, h1, h2, hs, hretry, hst]
  · intro attempts e hst hcode h0
    have hretry : isRetryable e = false := by simp [isRetryable, hst, hcode]
    refine ⟨?_, ?_, ?_⟩ <;>
      simp [chat, chatLoop, h0, hretry, hst]
  · intro attempts es hf hretry
    have h0 := hf 0 (by omega)
    have h1 := hf 1 (by omega)
    have h2 := hf 2 (by omega)
    have h3 := hf 3 (by omega)
    constructor <;>
      simp [chat, chatLoop, h0, h1, h2, h3, hretry 0, hretry 1, hretry 2, hretry 3]

/-- Witness for C3 at concrete oracles. -/
theorem chat_retry_c3_witness :
    ((chat "m" [] none none
        (fun k => if k < 3 then .failure ⟨some 503, none, "boom", none, none⟩
          else .success .vnull)
        (fun _ => "t") none).result = .ok .vnull ∧
      (chat "m" [] none none
        (fun k => if k < 3 then .failure ⟨some 503, none, "boom", none, none⟩
          else .success .vnull)
        (fun _ => "t") none).delaysMs = [1000, 2000, 4000]) ∧
    ((chat "m" [] none none
        (fun _ => .failure ⟨some 404, none, "nope", none, none⟩)
        (fun _ => "t") none).attemptsMade = 1) ∧
    ((chat "m" [] none none
        (fun _ => .failure ⟨none, some "ECONNREFUSED", "conn", none, none⟩)
        (fun _ => "t") none).result =
      .error (chatErrorMessage ⟨none, some "ECONNREFUSED", "conn", none, none⟩)) := by
  have h := chat_retry_c3 "m" [] none none (fun _ => "t") none
  refine ⟨?_, ?_, ?_⟩
  · have h2 := h.2.1 (fun k => if k < 3 then .failure ⟨some 503, none, "boom", none, none⟩
      else .success .vnull) ⟨some 503, none, "boom", none, none⟩ .vnull rfl
      (by intro k hk; simp [hk]) (by simp)
    exact ⟨h2.1, h2.2.1⟩
  · exact (h.2.2.1 (fun _ => .failure ⟨some 404, none, "nope", none, none⟩)
      ⟨some 404, none, "nope", none, none⟩ rfl rfl rfl).2.1
  · exact (h.2.2.2 (fun _ => .failure ⟨none, some "ECONNREFUSED", "conn", none, none⟩)
      (fun _ => ⟨none, some "ECONNREFUSED", "conn", none, none⟩)
      (fun k _ => rfl) (fun k => by simp [isRetryable])).1

/-- C7: a `chat` call failing with a 4xx status overwrites the
`lastErrorDetails` singleton — independently of any prior record — with a
record carrying the timestamp, status, message, response body, headers and
the full outgoing payload (model, converted messages, tools, stream
flag); a failure with any non-4xx status, or a connection error carrying
no status, leaves the record unchanged; `getLastErrorDetails` returns the
stored record and `clearLastErrorDetails` resets it to `null`. -/
theorem last_error_details_c7 (cm : String) (msgs : List OMsg)
    (tools : Option (List OTool)) (ma : Option String) (clock : Nat → String) :
    (∀ (led0 : Option LastErrorDetails) attempts (e : HttpFailure) (n : Nat),
      e.status = some n → 400 ≤ n → n < 500 → isRetryable e = false →
      attempts 0 = .failure e →
      ∃ led : LastErrorDetails,
        (chat cm msgs tools ma attempts clock led0).finalError = some led ∧
        led.timestamp = clock 0 ∧ led.status = n ∧ led.message = e.message ∧
        led.response = e.respData ∧ led.headers = e.headers ∧
        led.payloadModel = (mkChatPayload cm msgs tools ma false).model ∧
        led.payloadMessages = convertMessages msgs ∧
        led.payloadTools = (mkChatPayload cm msgs tools ma false).tools ∧
        led.payloadStream = false) ∧
    (∀ (led0 : Option LastErrorDetails) attempts (e : HttpFailure) (n : Nat),
      e.status = some n → ¬ (400 ≤ n ∧ n < 500) →
      (∀ k, attempts k = .failure e) →
      (chat cm msgs tools ma attempts clock led0).finalError = led0) ∧
    (∀ (led0 : Option LastErrorDetails) attempts (e : HttpFailure),
      e.status = none → (∀ k, attempts k = .failure e) →
      (chat cm msgs tools ma attempts clock led0).finalError = led0) ∧
    (∀ st : ClientState, getLastErrorDetails st = st.lastErrorDetails) ∧
    (∀ st : ClientState, getLastErrorDetails (clearLastErrorDetails st) = none) := by
  refine ⟨?_, ?_, ?_, fun _ => rfl, fun _ => rfl⟩
  · intro led0 attempts e n hst h400 h500 hret h0
    refine ⟨mkLastErrorDetails (clock 0) n e (mkChatPayload cm msgs tools ma false),
      ?_, rfl, rfl, rfl, rfl, rfl, rfl, rfl, rfl, rfl⟩
    simp [chat, chatLoop, h0, hret, hst, h400, h500, mkChatPayload]
  · intro led0 attempts e n hst hno hf
    cases hret : isRetryable e with
    | true =>
      simp [chat, chatLoop, hf 0, hf 1, hf 2, hf 3, hret, hst, hno]
    | false =>
      simp [chat, chatLoop, hf 0, hret, hst, hno]
  · intro led0 attempts e hst hf
    cases hret : isRetryable e with
    | true =>
      simp [chat, chatLoop, hf 0, hf 1, hf 2, hf 3, hret, hst]
    | false =>
      simp [chat, chatLoop, hf 0, hret, hst]

/-- Witness for C7 at concrete oracles: a 404 overwrites a previously
stored record; a 503 leaves it unchanged; clearing yields `null`. -/
theorem last_error_details_c7_witness :
    ((chat "m" [] none none
        (fun _ => .failure ⟨some 404, none, "nope", none, none⟩)
        (fun _ => "t0")
        (some ⟨"old", 400, "old", none, none, "m", [], none, false⟩)).finalError ≠
      some ⟨"old", 400, "old", none, none, "m", [], none, false⟩) ∧
    ((chat "m" [] none none
        (fun _ => .failure ⟨some 404, none, "nope", none, none⟩)
        (fun _ => "t0")
        (some ⟨"old", 400, "old", none, none, "m", [], none, false⟩)).finalError.isSome) ∧
    ((chat "m" [] none none
        (fun _ => .failure ⟨some 503, none, "boom", none, none⟩)
        (fun _ => "t0")
        (some ⟨"old", 400, "old", none, none, "m", [], none, false⟩)).finalError =
      some ⟨"old", 400, "old", none, none, "m", [], none, false⟩) ∧
    getLastErrorDetails (clearLastErrorDetails ⟨some ⟨"old", 400, "old", none,
      none, "m", [], none, false⟩⟩) = none := by
  have h := last_error_details_c7 "m" [] none none (fun _ => "t0")
  obtain ⟨led, hled, ht, hs, _⟩ := h.1
    (some ⟨"old", 400, "old", none, none, "m", [], none, false⟩)
    (fun _ => .failure ⟨some 404, none, "nope", none, none⟩)
    ⟨some 404, none, "nope", none, none⟩ 404 rfl (by omega) (by omega)
    (by simp [isRetryable]) rfl
  refine ⟨?_, ?_, ?_, h.2.2.2.2 _⟩
  · rw [hled]
    intro hcontra
    have : led = ⟨"old", 400, "old", none, none, "m", [], none, false⟩ :=
      Option.some.inj hcontra
    rw [this] at ht
    exact absurd ht (by simp)
  · rw [hled]; rfl
  · exact h.2.1 (some ⟨"old", 400, "old", none, none, "m", [], none, false⟩)
      (fun _ => .failure ⟨some 503, none, "boom", none, none⟩)
      ⟨some 503, none, "boom", none, none⟩ 503 rfl (by omega) (fun _ => rfl)

/-- C2 counterexample: on the input `"42"` — a string the claim's
universal quantifier covers — the decoder returns the parsed number, not
a key/value mapping, because the first stage's `JSON.parse` result is
returned verbatim and `JSON.parse` accepts any JSON value at top level. -/
theorem safeJsonParse_c2_counterexample :
    safeJsonParse "42" = JVal.vnum "42" ∧
    jsIsObj (safeJsonParse "42") = false := by
  constructor <;> rfl

/-- C2 (amended): the decoder is a total function (it never raises, by
construction of the staged `try`/`catch` chain); it returns the empty
mapping on the empty string; whenever the direct parse and the structural
repair both fail, the result is a key/value mapping — the empty mapping
when the manual scan finds neither a key/value pair nor a pairable token
list; and when the direct parse succeeds on a non-empty string its value
is returned verbatim, which is a mapping exactly when the input was a
JSON object (and not, e.g., for `"42"`). -/
theorem safeJsonParse_total_c2 :
    (safeJsonParse "" = JVal.vobj []) ∧
    (∀ s : String, (jsonParse s).isOk = false → (stage2Parse s).isOk = false →
      jsIsObj (safeJsonParse s) = true) ∧
    (∀ s : String, (jsonParse s).isOk = false → (stage2Parse s).isOk = false →
      decoderKvPairs s = [] →
      ¬ (2 ≤ (decoderTokens s).length ∧ (decoderTokens s).length % 2 = 0) →
      safeJsonParse s = JVal.vobj []) ∧
    (∀ (s : String) (v : JVal), s ≠ "" → jsonParse s = .ok v →
      safeJsonParse s = v) := by
  refine ⟨rfl, ?_, ?_, ?_⟩
  · intro s h1 h2
    by_cases hs : s = ""
    · subst hs; rfl
    · rw [safeJsonParse, if_neg hs]
      cases hp : jsonParse s with
      | ok v => rw [hp] at h1; simp [Except.isOk, Except.toBool] at h1
      | error e =>
        cases hq : stage2Parse s with
        | ok v => rw [hq] at h2; simp [Except.isOk, Except.toBool] at h2
        | error e2 =>
          simp only [hp, hq]
          rw [extractArgumentsManually]
          split
          · dsimp only
            split
            · rfl
            · rfl
          · rfl
  · intro s h1 h2 hkv htoks
    by_cases hs : s = ""
    · subst hs; rfl
    · rw [safeJsonParse, if_neg hs]
      cases hp : jsonParse s with
      | ok v => rw [hp] at h1; simp [Except.isOk, Except.toBool] at h1
      | error e =>
        cases hq : stage2Parse s with
        | ok v => rw [hq] at h2; simp [Except.isOk, Except.toBool] at h2
        | error e2 =>
          simp only [hp, hq]
          rw [extractArgumentsManually]
          rw [if_pos (by rw [hkv]; rfl)]
          dsimp only
          rw [if_neg htoks]
  · intro s v hs hp
    rw [safeJsonParse, if_neg hs, hp]

/-- Witness for C2 (amended) at concrete inputs: the truncated JSON
`\x7b"a": ` (both stages fail, nothing extractable — empty mapping) and the
direct-parse success `"42"`. -/
theorem safeJsonParse_total_c2_witness :
    jsIsObj (safeJsonParse "\x7b\"a\": ") = true ∧
    safeJsonParse "\x7b\"a\": " = JVal.vobj [] ∧
    safeJsonParse "42" = JVal.vnum "42" := by
  refine ⟨?_, ?_, ?_⟩
  · exact safeJsonParse_total_c2.2.1 "\x7b\"a\": " (by rfl) (by rfl)
  · exact safeJsonParse_total_c2.2.2.1 "\x7b\"a\": " (by rfl) (by rfl) (by rfl)
      (by decide)
  · exact safeJsonParse_total_c2.2.2.2 "42" (JVal.vnum "42") (by decide) (by rfl)

theorem jsLookup_jsSet_self (fields : List (String × JVal)) (k : String)
    (v : JVal) : jsLookup (jsSet fields k v) k = some v := by
  induction fields with
  | nil => simp [jsSet, jsLookup]
  | cons p rest ih =>
    obtain ⟨k0, v0⟩ := p
    by_cases h : k0 = k
    · simp [jsSet, jsLookup, h]
    · simp [jsSet, jsLookup, h, ih]

theorem jsLookup_jsSet_other (fields : List (String × JVal)) (k k2 : String)
    (v : JVal) (h : k2 ≠ k) :
    jsLookup (jsSet fields k v) k2 = jsLookup fields k2 := by
  have hkk : ¬ k = k2 := fun he => h he.symm
  induction fields with
  | nil => simp [jsSet, jsLookup, hkk]
  | cons p rest ih =>
    obtain ⟨k0, v0⟩ := p
    by_cases hp : k0 = k
    · subst hp
      simp [jsSet, jsLookup, hkk]
    · by_cases hq : k0 = k2
      · simp [jsSet, jsLookup, hp, hq, h]
      · simp [jsSet, jsLookup, hp, hq, ih]

theorem pairFold_lookup_not_mem :
    ∀ (toks : List String) (acc : List (String × JVal)) (k : String),
    k ∉ evenIdxKeys toks → jsLookup (pairFold acc toks) k = jsLookup acc k
  | [], _, _, _ => rfl
  | [_], _, _, _ => rfl
  | t :: v :: rest, acc, k, h => by
    have hne : k ≠ t := by
      intro he
      exact h (by rw [he, evenIdxKeys]; exact List.mem_cons_self _ _)
    have hrest : k ∉ evenIdxKeys rest := by
      intro hm
      exact h (by rw [evenIdxKeys]; exact List.mem_cons_of_mem _ hm)
    rw [pairFold, pairFold_lookup_not_mem rest _ k hrest]
    exact jsLookup_jsSet_other _ _ _ _ hne

theorem pairFold_get :
    ∀ (toks : List String) (acc : List (String × JVal)) (i : Nat),
    2 * i + 1 < toks.length → (evenIdxKeys toks).Nodup →
    jsLookup (pairFold acc toks) (nthTok toks (2 * i)) =
      some (.vstr (nthTok toks (2 * i + 1)))
  | [], _, i, h2, _ => by simp at h2
  | [_], _, i, h2, _ => by simp at h2
  | t :: v :: rest, acc, 0, h2, hnd => by
    have ht : t ∉ evenIdxKeys rest := by
      have hx := hnd
      rw [evenIdxKeys] at hx
      exact (List.nodup_cons.mp hx).1
    show jsLookup (pairFold (jsSet acc t (.vstr v)) rest) t = some (.vstr v)
    rw [pairFold_lookup_not_mem rest _ t ht]
    exact jsLookup_jsSet_self _ _ _
  | t :: v :: rest, acc, i + 1, h2, hnd => by
    have hrest : 2 * i + 1 < rest.length := by
      simp at h2
      omega
    have hnd2 : (evenIdxKeys rest).Nodup := by
      rw [evenIdxKeys] at hnd
      exact (List.nodup_cons.mp hnd).2
    have ha : nthTok (t :: v :: rest) (2 * (i + 1)) = nthTok rest (2 * i) := by
      have hx : 2 * (i + 1) = 2 * i + 2 := by omega
      rw [nthTok, nthTok, hx]
      rfl
    have hb : nthTok (t :: v :: rest) (2 * (i + 1) + 1) =
        nthTok rest (2 * i + 1) := by
      have hx : 2 * (i + 1) + 1 = 2 * i + 1 + 2 := by omega
      rw [nthTok, nthTok, hx]
      rfl
    rw [pairFold, ha, hb]
    exact pairFold_get rest (jsSet acc t (.vstr v)) i hrest hnd2

/-- C9 counterexample: on `"a" "b" "c"` the direct parse and the repair
both fail and the key/value scan finds nothing, the quoted tokens being
`a`, `b`, `c`; the claim asserts token 0 becomes a key mapped to token 1,
but with an odd token count the source's `values.length % 2 === 0` guard
skips the pairing and the decoder returns the empty mapping, where `a` is
not bound. -/
theorem manual_pairing_c9_counterexample :
    (jsonParse "\"a\" \"b\" \"c\"").isOk = false ∧
    (stage2Parse "\"a\" \"b\" \"c\"").isOk = false ∧
    decoderKvPairs "\"a\" \"b\" \"c\"" = [] ∧
    decoderTokens "\"a\" \"b\" \"c\"" = ["a", "b", "c"] ∧
    safeJsonParse "\"a\" \"b\" \"c\"" = JVal.vobj [] ∧
    jsField (safeJsonParse "\"a\" \"b\" \"c\"") "a" = JVal.vundef := by
  exact ⟨rfl, rfl, rfl, rfl, rfl, rfl⟩

/-- C9 (amended): when the earlier stages fail and the key/value scan
finds nothing, the decoder pairs the quoted tokens positionally only when
there are at least two of them and their count is even — then, provided
the even-position keys are pairwise distinct, the (2i)-th token is a key
mapped to the (2i+1)-th token (with duplicate keys a later pair would
overwrite an earlier one); with an odd or insufficient token count the
decoder returns the empty mapping instead. -/
theorem manual_pairing_c9 (s : String)
    (h1 : (jsonParse s).isOk = false) (h2 : (stage2Parse s).isOk = false)
    (hkv : decoderKvPairs s = []) :
    (¬ (2 ≤ (decoderTokens s).length ∧ (decoderTokens s).length % 2 = 0) →
      safeJsonParse s = JVal.vobj []) ∧
    ((2 ≤ (decoderTokens s).length ∧ (decoderTokens s).length % 2 = 0) →
      (evenIdxKeys (decoderTokens s)).Nodup →
      ∀ i, 2 * i + 1 < (decoderTokens s).length →
        jsField (safeJsonParse s) (nthTok (decoderTokens s) (2 * i)) =
          .vstr (nthTok (decoderTokens s) (2 * i + 1))) := by
  have hbase : safeJsonParse s = extractArgumentsManually s := by
    by_cases hs : s = ""
    · subst hs
      rfl
    · rw [safeJsonParse, if_neg hs]
      cases hp : jsonParse s with
      | ok v => rw [hp] at h1; simp [Except.isOk, Except.toBool] at h1
      | error e =>
        cases hq : stage2Parse s with
        | ok v => rw [hq] at h2; simp [Except.isOk, Except.toBool] at h2
        | error e2 => simp [hp, hq]
  constructor
  · intro hodd
    rw [hbase, extractArgumentsManually, if_pos (by rw [hkv]; rfl)]
    dsimp only
    rw [if_neg hodd]
  · intro heven hnd i hi
    rw [hbase, extractArgumentsManually, if_pos (by rw [hkv]; rfl)]
    dsimp only
    rw [if_pos heven]
    have hlk := pairFold_get (decoderTokens s) [] i hi hnd
    show (jsLookup (pairFold [] (decoderTokens s)) (nthTok (decoderTokens s) (2 * i))).getD .vundef = _
    rw [hlk]
    rfl

/-- Witness for C9 (amended) at `"a" "b" "c" "d"` (even case, both pairs)
and `"a" "b" "c"` (odd case). -/
theorem manual_pairing_c9_witness :
    jsField (safeJsonParse "\"a\" \"b\" \"c\" \"d\"") "a" = JVal.vstr "b" ∧
    jsField (safeJsonParse "\"a\" \"b\" \"c\" \"d\"") "c" = JVal.vstr "d" ∧
    safeJsonParse "\"a\" \"b\" \"c\"" = JVal.vobj [] := by
  have h4 := manual_pairing_c9 "\"a\" \"b\" \"c\" \"d\"" (by rfl) (by rfl) (by rfl)
  have h3 := manual_pairing_c9 "\"a\" \"b\" \"c\"" (by rfl) (by rfl) (by rfl)
  refine ⟨?_, ?_, h3.1 (by decide)⟩
  · have := h4.2 (by decide) (by decide) 0 (by decide)
    simpa using this
  · have := h4.2 (by decide) (by decide) 1 (by decide)
    simpa using this

/-- C10: a tool invocation whose name starts with `mcp__` has its raw
argument string parsed by the *strict* `JSON.parse` rather than the
never-failing staged decoder: with invalid JSON arguments, `executeTool`
returns a failed result carrying an `MCP tool execution error` message,
and does so for every possible external-registry backend — the external
tool is never consulted (the outcome is independent of `mcpCallTool`).
By contrast, a built-in tool such as `bash` receives the degraded
`safeJsonParse` mapping of the same invalid payload and is dispatched. -/
theorem mcp_strict_parse_c10 (tb : ToolBackends)
    (f : String → JVal → Except String MCPResult) (rest a : String)
    (idv tyv bid bty : JVal) (m : String)
    (hparse : jsonParse a = .error m)
    (hnn : safeJsonParse a ≠ JVal.vnull)
    (hnu : safeJsonParse a ≠ JVal.vundef) :
    executeTool { tb with mcpCallTool := f }
      (JVal.vobj [("id", idv), ("type", tyv),
        ("function", JVal.vobj [("name", JVal.vstr ("mcp__" ++ rest)),
          ("arguments", JVal.vstr a)])]) =
      ⟨false, none, some ("MCP tool execution error: " ++ m)⟩ ∧
    executeTool tb
      (JVal.vobj [("id", bid), ("type", bty),
        ("function", JVal.vobj [("name", JVal.vstr "bash"),
          ("arguments", JVal.vstr a)])]) =
      tb.bashExecute (jsField (safeJsonParse a) "command") := by
  have hdata : ("mcp__" ++ rest).data = 'm' :: 'c' :: 'p' :: '_' :: '_' :: rest.data := rfl
  have hne1 : ¬ ("mcp__" ++ rest) = "view_file" := by
    intro h
    have h2 : 'm' :: 'c' :: 'p' :: '_' :: '_' :: rest.data = "view_file".data := by
      rw [← hdata, h]
    simp at h2
  have hne2 : ¬ ("mcp__" ++ rest) = "create_file" := by
    intro h
    have h2 : 'm' :: 'c' :: 'p' :: '_' :: '_' :: rest.data = "create_file".data := by
      rw [← hdata, h]
    simp at h2
  have hne3 : ¬ ("mcp__" ++ rest) = "str_replace_editor" := by
    intro h
    have h2 : 'm' :: 'c' :: 'p' :: '_' :: '_' :: rest.data = "str_replace_editor".data := by
      rw [← hdata, h]
    simp at h2
  have hne4 : ¬ ("mcp__" ++ rest) = "bash" := by
    intro h
    have h2 : 'm' :: 'c' :: 'p' :: '_' :: '_' :: rest.data = "bash".data := by
      rw [← hdata, h]
    simp at h2
  have hne5 : ¬ ("mcp__" ++ rest) = "create_todo_list" := by
    intro h
    have h2 : 'm' :: 'c' :: 'p' :: '_' :: '_' :: rest.data = "create_todo_list".data := by
      rw [← hdata, h]
    simp at h2
  have hne6 : ¬ ("mcp__" ++ rest) = "update_todo_list" := by
    intro h
    have h2 : 'm' :: 'c' :: 'p' :: '_' :: '_' :: rest.data = "update_todo_list".data := by
      rw [← hdata, h]
    simp at h2
  have hne7 : ¬ ("mcp__" ++ rest) = "search" := by
    intro h
    have h2 : 'm' :: 'c' :: 'p' :: '_' :: '_' :: rest.data = "search".data := by
      rw [← hdata, h]
    simp at h2
  have hpre : "mcp__".toList.isPrefixOf ("mcp__" ++ rest).toList = true := by
    show ('m' :: 'c' :: 'p' :: '_' :: '_' :: []).isPrefixOf
      ('m' :: 'c' :: 'p' :: '_' :: '_' :: rest.data) = true
    simp [List.isPrefixOf]
  constructor
  · simp only [executeTool, executeToolE, jsGetField, jsField, jsLookup]
    simp [hne1, hne2, hne3, hne4, hne5, hne6, hne7, hpre, executeMCPTool,
      jsField, jsLookup, jsToStringCoerce, hparse, Bind.bind, Except.bind,
      pure, Except.pure, Functor.map, Except.map]
  · simp only [executeTool, executeToolE, jsGetField, jsField, jsLookup]
    cases hargs : safeJsonParse a with
    | vnull => exact absurd hargs hnn
    | vundef => exact absurd hargs hnu
    | vbool b =>
      simp [hargs, jsGetField, jsField, jsLookup, Bind.bind, Except.bind, pure,
        Except.pure, Functor.map, Except.map]
    | vnum lex =>
      simp [hargs, jsGetField, jsField, jsLookup, Bind.bind, Except.bind, pure,
        Except.pure, Functor.map, Except.map]
    | vstr s2 =>
      simp [hargs, jsGetField, jsField, jsLookup, Bind.bind, Except.bind, pure,
        Except.pure, Functor.map, Except.map]
    | varr l =>
      simp [hargs, jsGetField, jsField, jsLookup, Bind.bind, Except.bind, pure,
        Except.pure, Functor.map, Except.map]
    | vobj fsx =>
      simp [hargs, jsGetField, jsField, jsLookup, Bind.bind, Except.bind, pure,
        Except.pure, Functor.map, Except.map]

/-- Witness for C10: the registry tool `mcp__srv__run` with the malformed
payload `\x7bbad` fails without consulting the backend, while `bash` with the
same payload dispatches with the repaired (empty) argument mapping. -/
theorem mcp_strict_parse_c10_witness :
    (executeTool
      { textEditorView := fun _ _ => ⟨true, some "v", none⟩,
        textEditorCreate := fun _ _ => ⟨true, some "c", none⟩,
        textEditorStrReplace := fun _ _ _ _ => ⟨true, some "s", none⟩,
        bashExecute := fun _ => ⟨true, some "b", none⟩,
        todoCreate := fun _ => ⟨true, some "t", none⟩,
        todoUpdate := fun _ => ⟨true, some "u", none⟩,
        searchTool := fun _ _ => ⟨true, some "q", none⟩,
        mcpCallTool := fun _ _ => .ok ⟨false, [.text "called"]⟩ }
      (JVal.vobj [("id", JVal.vstr "1"), ("type", JVal.vstr "function"),
        ("function", JVal.vobj [("name", JVal.vstr ("mcp__" ++ "srv__run")),
          ("arguments", JVal.vstr "\x7bbad")])])).success = false ∧
    executeTool
      { textEditorView := fun _ _ => ⟨true, some "v", none⟩,
        textEditorCreate := fun _ _ => ⟨true, some "c", none⟩,
        textEditorStrReplace := fun _ _ _ _ => ⟨true, some "s", none⟩,
        bashExecute := fun _ => ⟨true, some "b", none⟩,
        todoCreate := fun _ => ⟨true, some "t", none⟩,
        todoUpdate := fun _ => ⟨true, some "u", none⟩,
        searchTool := fun _ _ => ⟨true, some "q", none⟩,
        mcpCallTool := fun _ _ => .ok ⟨false, [.text "called"]⟩ }
      (JVal.vobj [("id", JVal.vstr "2"), ("type", JVal.vstr "function"),
        ("function", JVal.vobj [("name", JVal.vstr "bash"),
          ("arguments", JVal.vstr "\x7bbad")])]) = ⟨true, some "b", none⟩ := by
  have h := mcp_strict_parse_c10
    { textEditorView := fun _ _ => ⟨true, some "v", none⟩,
      textEditorCreate := fun _ _ => ⟨true, some "c", none⟩,
      textEditorStrReplace := fun _ _ _ _ => ⟨true, some "s", none⟩,
      bashExecute := fun _ => ⟨true, some "b", none⟩,
      todoCreate := fun _ => ⟨true, some "t", none⟩,
      todoUpdate := fun _ => ⟨true, some "u", none⟩,
      searchTool := fun _ _ => ⟨true, some "q", none⟩,
      mcpCallTool := fun _ _ => .ok ⟨false, [.text "called"]⟩ }
    (fun _ _ => .ok ⟨false, [.text "called"]⟩) "srv__run" "\x7bbad"
    (JVal.vstr "1") (JVal.vstr "function") (JVal.vstr "2") (JVal.vstr "function")
    "Expected string key in JSON object" (by rfl)
    (by intro hc; cases hc) (by intro hc; cases hc)
  constructor
  · rw [h.1]
  · exact h.2

theorem mergeArrE_ok_length : ∀ (xs ys zs : List JVal),
    mergeArrE xs ys = .ok zs → zs.length = max xs.length ys.length
  | xs, [], zs => by
    intro h
    rw [mergeArrE] at h
    injection h with h2
    rw [← h2]
    simp
  | [], y :: ys, zs => by
    intro h
    rw [mergeArrE] at h
    cases hr : reduceAnyE (if truthy JVal.vundef then JVal.vundef else JVal.vobj []) y with
    | error m => rw [hr] at h; exact Except.noConfusion h
    | ok z =>
      rw [hr] at h
      cases hm : mergeArrE [] ys with
      | error m => rw [hm] at h; exact Except.noConfusion h
      | ok zs2 =>
        rw [hm] at h
        injection h with h2
        rw [← h2]
        have hl := mergeArrE_ok_length [] ys zs2 hm
        simp [hl]
  | x :: xs, y :: ys, zs => by
    intro h
    rw [mergeArrE] at h
    cases hr : reduceAnyE (if truthy x then x else JVal.vobj []) y with
    | error m => rw [hr] at h; exact Except.noConfusion h
    | ok z =>
      rw [hr] at h
      cases hm : mergeArrE xs ys with
      | error m => rw [hm] at h; exact Except.noConfusion h
      | ok zs2 =>
        rw [hm] at h
        injection h with h2
        rw [← h2]
        have hl := mergeArrE_ok_length xs ys zs2 hm
        simp [hl]
        omega

/-- C5 counterexample: the first time a field appears, the reducer does
*not* always set it verbatim — an array value has `index` properties
deleted from its object elements (the source's `delete arr.index`
cleanup), so the stored value differs from the delta's. -/
theorem aggregator_c5_counterexample :
    messageReducerE (JVal.vobj [])
      (JVal.vobj [("choices", JVal.varr [JVal.vobj [("delta",
        JVal.vobj [("tool_calls",
          JVal.varr [JVal.vobj [("index", JVal.vnum "0")]])])]])]) =
      .ok (JVal.vobj [("tool_calls", JVal.varr [JVal.vobj []])]) ∧
    JVal.varr [(JVal.vobj [] : JVal)] ≠
      JVal.varr [JVal.vobj [("index", JVal.vnum "0")]] := by
  constructor
  · simp [messageReducerE, jsField, jsIndex, jsLookup, truthy, reduceAnyE,
      reduceObjE, stepFieldE, jsEntries, jsSet, cleanIndexE, delIndexElemsE,
      delIndexPropE]
  · simp

/-- C5 (amended): the reducer appends string-typed delta fields to
existing string fields; merges array-typed fields positionally (element i
of the fragment into element i of the accumulator, a successful merge
keeping the longer length), a `null` fragment element making the
recursive `reduce` throw the `Object.entries` TypeError; sets a field the
first time it appears — verbatim except for the `index` cleanup on an
array value, whose `null` elements make the `delete` throw; a `null`
delta value meeting an existing object-valued field likewise throws;
folding the empty accumulator over the deltas
`tool_calls:[\x7bfunction:\x7bname:"bash"\x7d\x7d]`,
`tool_calls:[\x7bfunction:\x7barguments:"\x7b\"command\""\x7d\x7d]`,
`tool_calls:[\x7bfunction:\x7barguments:":\"ls\"\x7d"\x7d\x7d]` yields exactly one
invocation with name `bash` and arguments `\x7b"command":"ls"\x7d`. -/
theorem aggregator_merge_c5 :
    (∀ (fs : List (String × JVal)) (k a b : String),
      jsLookup fs k = some (.vstr a) →
      reduceAnyE (.vobj fs) (.vobj [(k, .vstr b)]) =
        .ok (.vobj (jsSet fs k (.vstr (a ++ b))))) ∧
    (∀ (fs : List (String × JVal)) (k : String) (xs ys : List JVal),
      jsLookup fs k = some (.varr xs) →
      reduceAnyE (.vobj fs) (.vobj [(k, .varr ys)]) =
        (mergeArrE xs ys).map (fun zs => JVal.vobj (jsSet fs k (.varr zs))) ∧
      (∀ zs, mergeArrE xs ys = .ok zs →
        zs.length = max xs.length ys.length)) ∧
    (∀ xs ys : List JVal, mergeArrE xs (JVal.vnull :: ys) = .error nullConvErr) ∧
    (∀ (fs : List (String × JVal)) (k : String) (v : JVal),
      jsLookup fs k = none →
      reduceAnyE (.vobj fs) (.vobj [(k, v)]) =
        (cleanIndexE v).map (fun w => JVal.vobj (jsSet fs k w))) ∧
    (∀ t : List JVal, cleanIndexE (.varr (JVal.vnull :: t)) = .error nullConvErr) ∧
    (∀ (fs : List (String × JVal)) (k : String) (gs : List (String × JVal)),
      jsLookup fs k = some (.vobj gs) →
      reduceAnyE (.vobj fs) (.vobj [(k, JVal.vnull)]) = .error nullConvErr) ∧
    (accumulateFragsE
      [JVal.vobj [("choices", JVal.varr [JVal.vobj [("delta",
        JVal.vobj [("tool_calls", JVal.varr [JVal.vobj [("function",
          JVal.vobj [("name", JVal.vstr "bash")])]])])]])],
       JVal.vobj [("choices", JVal.varr [JVal.vobj [("delta",
        JVal.vobj [("tool_calls", JVal.varr [JVal.vobj [("function",
          JVal.vobj [("arguments", JVal.vstr "\x7b\"command\"")])]])])]])],
       JVal.vobj [("choices", JVal.varr [JVal.vobj [("delta",
        JVal.vobj [("tool_calls", JVal.varr [JVal.vobj [("function",
          JVal.vobj [("arguments", JVal.vstr ":\"ls\"\x7d")])]])])]])]]
      (JVal.vobj []) =
      .ok (JVal.vobj [("tool_calls", JVal.varr [JVal.vobj [("function",
        JVal.vobj [("name", JVal.vstr "bash"),
          ("arguments", JVal.vstr "\x7b\"command\":\"ls\"\x7d")])]])])) := by
  refine ⟨?_, ?_, ?_, ?_, ?_, ?_, ?_⟩
  · intro fs k a b h
    simp [reduceAnyE, jsEntries, reduceObjE, stepFieldE, h]
  · intro fs k xs ys h
    constructor
    · cases hm : mergeArrE xs ys <;>
        simp [reduceAnyE, jsEntries, reduceObjE, stepFieldE, h, hm, Except.map]
    · intro zs hz
      exact mergeArrE_ok_length xs ys zs hz
  · intro xs ys
    cases xs <;> simp [mergeArrE, reduceAnyE]
  · intro fs k v h
    cases hc : cleanIndexE v <;>
      simp [reduceAnyE, jsEntries, reduceObjE, stepFieldE, h, hc, Except.map]
  · intro t
    simp [cleanIndexE, delIndexElemsE, delIndexPropE]
  · intro fs k gs h
    simp [reduceAnyE, jsEntries, reduceObjE, stepFieldE, h]
  · simp [accumulateFragsE, messageReducerE, jsField, jsIndex, jsLookup, truthy,
      reduceAnyE, reduceObjE, stepFieldE, mergeArrE, jsEntries, jsSet,
      cleanIndexE, delIndexElemsE, delIndexPropE]

/-- Witness for C5 (amended) at concrete fields, including a throwing
merge. -/
theorem aggregator_merge_c5_witness :
    reduceAnyE (.vobj [("content", JVal.vstr "he")])
      (.vobj [("content", JVal.vstr "llo")]) =
      .ok (.vobj [("content", JVal.vstr "hello")]) ∧
    reduceAnyE (.vobj [("tool_calls", JVal.varr [JVal.vobj [("a", JVal.vstr "x")]])])
      (.vobj [("tool_calls", JVal.varr [JVal.vobj [("b", JVal.vstr "y")],
        JVal.vobj [("c", JVal.vstr "z")]])]) =
      .ok (.vobj [("tool_calls", JVal.varr [JVal.vobj [("a", JVal.vstr "x"),
        ("b", JVal.vstr "y")], JVal.vobj [("c", JVal.vstr "z")]])]) ∧
    reduceAnyE (.vobj []) (.vobj [("role", JVal.vstr "assistant")]) =
      .ok (.vobj [("role", JVal.vstr "assistant")]) ∧
    reduceAnyE (.vobj [("tool_calls", JVal.varr [JVal.vobj [("a", JVal.vstr "x")]])])
      (.vobj [("tool_calls", JVal.varr [JVal.vnull])]) = .error nullConvErr := by
  refine ⟨?_, ?_, ?_, ?_⟩
  · have h := aggregator_merge_c5.1 [("content", JVal.vstr "he")] "content"
      "he" "llo" (by rfl)
    simpa using h
  · have h := (aggregator_merge_c5.2.1
      [("tool_calls", JVal.varr [JVal.vobj [("a", JVal.vstr "x")]])] "tool_calls"
      [JVal.vobj [("a", JVal.vstr "x")]]
      [JVal.vobj [("b", JVal.vstr "y")], JVal.vobj [("c", JVal.vstr "z")]]
      (by rfl)).1
    rw [h]
    simp [jsSet, mergeArrE, reduceAnyE, jsEntries, reduceObjE, stepFieldE,
      jsLookup, truthy, cleanIndexE, delIndexElemsE, delIndexPropE, Except.map]
  · have h := aggregator_merge_c5.2.2.2.1 [] "role" (JVal.vstr "assistant") (by rfl)
    simpa [jsSet, cleanIndexE, Except.map] using h
  · have h := (aggregator_merge_c5.2.1
      [("tool_calls", JVal.varr [JVal.vobj [("a", JVal.vstr "x")]])] "tool_calls"
      [JVal.vobj [("a", JVal.vstr "x")]] [JVal.vnull] (by rfl)).1
    rw [h, aggregator_merge_c5.2.2.1]
    rfl

/-- With the abort flag never set, the fragment loop completes, emits only
plain events, and accumulates exactly the non-skipped fragments. -/
theorem all_if_singleton (p : AgentEvent → Bool) (b : Bool) (v : AgentEvent)
    (hv : p v = true) : (if b = true then [v] else []).all p = true := by
  cases b <;> simp [hv]

theorem processFrags_noabort (env : AgentEnv)
    (hna : ∀ k, env.abortAt k = false) (it : Nat) :
    ∀ (frags : List JVal) (fs : FragState),
    (processFrags env it frags fs).1.all plainEv = true ∧
    ((processFrags env it frags fs).2.map FragState.accMsg) =
      some (accumulateFrags frags fs.accMsg) := by
  intro frags
  induction frags with
  | nil =>
    intro fs
    exact ⟨rfl, rfl⟩
  | cons chunk rest ih =>
    intro fs
    rw [processFrags]
    simp only [hna, Bool.false_eq_true, if_false]
    by_cases hc0 : truthy (jsIndex (jsField chunk "choices") 0)
    · simp only [hc0, Bool.not_true, Bool.false_eq_true, if_false]
      by_cases hdc : truthy (jsField (jsField (jsIndex (jsField chunk "choices") 0) "delta") "content")
      · simp only [hdc, if_true]
        constructor
        · simp [List.all_append, plainEv, (ih _).1, all_if_singleton]
          intro x h1 h2 h3 hx
          subst hx
          rfl
        · rw [(ih _).2, accumulateFrags]
          simp [hc0]
      · simp only [hdc, Bool.false_eq_true, if_false]
        constructor
        · simp [List.all_append, plainEv, (ih _).1, all_if_singleton]
          intro x h1 h2 h3 hx
          subst hx
          rfl
        · rw [(ih _).2, accumulateFrags]
          simp [hc0]
    · simp only [hc0, Bool.not_false, if_true]
      constructor
      · simp [List.all_append, plainEv, (ih _).1]
      · rw [(ih _).2, accumulateFrags]
        simp [hc0]

/-- With the abort flag never set, the tool loop completes and emits only
plain events. -/
theorem execTools_noabort (env : AgentEnv)
    (hna : ∀ k, env.abortAt k = false) :
    ∀ (tcs : List JVal) (es : ExecState),
    (execTools env tcs es).1.all plainEv = true ∧
    (execTools env tcs es).2.isSome = true := by
  intro tcs
  induction tcs with
  | nil =>
    intro es
    exact ⟨rfl, rfl⟩
  | cons tc rest ih =>
    intro es
    rw [execTools]
    simp only [hna, Bool.false_eq_true, if_false]
    refine ⟨?_, (ih _).2⟩
    simp only [List.all_append, List.all_cons, List.all_nil, plainEv,
      Bool.and_true, Bool.true_and]
    exact (ih _).1
/-- A plain event is none of the notices and not `done`. -/
theorem plain_not_notice (e : AgentEvent) (h : plainEv e = true) :
    isLimitNotice e = false ∧ isDoneEv e = false ∧ isErrorNotice e = false := by
  cases e <;> simp_all [plainEv, isLimitNotice, isDoneEv, isErrorNotice]

theorem countP_limit_zero (l : List AgentEvent) (h : l.all plainEv = true) :
    l.countP isLimitNotice = 0 ∧ l.countP isDoneEv = 0 ∧
    l.countP isErrorNotice = 0 := by
  refine ⟨?_, ?_, ?_⟩ <;>
    (rw [List.countP_eq_zero]
     intro a ha
     have hp := List.all_eq_true.mp h a ha
     have := plain_not_notice a hp
     simp_all)

/-- With the flag never set, a round whose stream raises nothing and
yields invocations continues the loop, emitting only plain events. -/
theorem runRound_cont (env : AgentEnv) (hna : ∀ k, env.abortAt k = false)
    (st : LoopState)
    (herr : (env.rounds st.toolRounds).err = none)
    (htc : jsLenGtZero (roundToolCallsOf env st.toolRounds) = true) :
    ∃ evs st2, runRound env st = (evs, .cont st2) ∧ evs.all plainEv = true := by
  have hfr := processFrags_noabort env hna st.inputTokens
    (env.rounds st.toolRounds).frags
    ⟨.vobj [], "", false, st.checks + 1, st.totalOutputTokens⟩
  rw [runRound]
  simp only [hna, Bool.false_eq_true, if_false]
  cases hp : (processFrags env st.inputTokens (env.rounds st.toolRounds).frags
      ⟨.vobj [], "", false, st.checks + 1, st.totalOutputTokens⟩).2 with
  | none =>
    rw [hp] at hfr
    simp at hfr
  | some fs1 =>
    have hacc : fs1.accMsg =
        accumulateFrags (env.rounds st.toolRounds).frags (.vobj []) := by
      have := hfr.2
      rw [hp] at this
      simpa using this
    simp only [hp, herr]
    have htc2 : jsLenGtZero
        (if (!truthy (jsField fs1.accMsg "tool_calls") ||
            jsLenIsZero (jsField fs1.accMsg "tool_calls")) = true then
          parseToolCallsFromContent (env.genId st.toolRounds)
            (jsField fs1.accMsg "content")
        else jsField fs1.accMsg "tool_calls") = true := by
      rw [hacc]
      exact htc
    simp only [htc2, if_true]
    have hex := execTools_noabort env hna
      (match
        (if (!truthy (jsField fs1.accMsg "tool_calls") ||
            jsLenIsZero (jsField fs1.accMsg "tool_calls")) = true then
          parseToolCallsFromContent (env.genId st.toolRounds)
            (jsField fs1.accMsg "content")
        else jsField fs1.accMsg "tool_calls") with
        | .varr l => l
        | _ => [])
      ⟨st.msgs ++ [⟨"assistant",
        (if truthy (jsField fs1.accMsg "content") = true then
          jsToStringCoerce (jsField fs1.accMsg "content") else ""),
        some (if (!truthy (jsField fs1.accMsg "tool_calls") ||
            jsLenIsZero (jsField fs1.accMsg "tool_calls")) = true then
          parseToolCallsFromContent (env.genId st.toolRounds)
            (jsField fs1.accMsg "content")
        else jsField fs1.accMsg "tool_calls"), none⟩],
        fs1.checks, st.toolExecs⟩
    cases he : (execTools env
      (match
        (if (!truthy (jsField fs1.accMsg "tool_calls") ||
            jsLenIsZero (jsField fs1.accMsg "tool_calls")) = true then
          parseToolCallsFromContent (env.genId st.toolRounds)
            (jsField fs1.accMsg "content")
        else jsField fs1.accMsg "tool_calls") with
        | .varr l => l
        | _ => [])
      ⟨st.msgs ++ [⟨"assistant",
        (if truthy (jsField fs1.accMsg "content") = true then
          jsToStringCoerce (jsField fs1.accMsg "content") else ""),
        some (if (!truthy (jsField fs1.accMsg "tool_calls") ||
            jsLenIsZero (jsField fs1.accMsg "tool_calls")) = true then
          parseToolCallsFromContent (env.genId st.toolRounds)
            (jsField fs1.accMsg "content")
        else jsField fs1.accMsg "tool_calls"), none⟩],
        fs1.checks, st.toolExecs⟩).2 with
    | none =>
      rw [he] at hex
      simp at hex
    | some es1 =>
      simp only [he]
      refine ⟨_, _, rfl, ?_⟩
      rw [List.all_append, List.all_append, List.all_append, List.all_cons]
      simp only [Bool.and_eq_true]
      refine ⟨⟨⟨⟨rfl, hfr.1⟩, ?_⟩, hex.1⟩, rfl⟩
      cases hty : fs1.toolCallsYielded <;> simp [hty, plainEv]

/-- With the flag never set, the exception-aware fragment loop never
cancels, and its outcome (completion or throw) agrees with the
aggregation of the fragments. -/
theorem processFragsE_noabort (env : AgentEnv)
    (hna : ∀ k, env.abortAt k = false) (it : Nat) :
    ∀ (frags : List JVal) (fs : FragState),
    (processFragsE env it frags fs).1.all plainEv = true ∧
    (processFragsE env it frags fs).2 ≠ FragOut.cancelled ∧
    (∀ fs2, (processFragsE env it frags fs).2 = FragOut.done fs2 →
      accumulateFragsE frags fs.accMsg = .ok fs2.accMsg) ∧
    (∀ m fsx, (processFragsE env it frags fs).2 = FragOut.thrown m fsx →
      accumulateFragsE frags fs.accMsg = .error m) := by
  intro frags
  induction frags with
  | nil =>
    intro fs
    refine ⟨rfl, ?_, ?_, ?_⟩
    · intro hc
      exact FragOut.noConfusion hc
    · intro fs2 h
      injection h with h2
      rw [h2]
      rfl
    · intro m fsx h
      exact FragOut.noConfusion h
  | cons chunk rest ih =>
    intro fs
    rw [processFragsE]
    simp only [hna, Bool.false_eq_true, if_false]
    by_cases hc0 : truthy (jsIndex (jsField chunk "choices") 0) = true
    · simp only [hc0, Bool.not_true, Bool.false_eq_true, if_false]
      cases hmr : messageReducerE fs.accMsg chunk with
      | error m =>
        simp only [hmr]
        refine ⟨by simp [plainEv], ?_, ?_, ?_⟩
        · intro hc
          exact FragOut.noConfusion hc
        · intro fs2 h
          exact FragOut.noConfusion h
        · intro m2 fsx h
          injection h with h2 h3
          rw [accumulateFragsE]
          simp only [hc0, Bool.not_true, Bool.false_eq_true, if_false, hmr]
          rw [h2]
      | ok acc2 =>
        simp only [hmr]
        by_cases hdc : truthy (jsField (jsField (jsIndex (jsField chunk "choices") 0) "delta") "content") = true
        · simp only [hdc, if_true]
          refine ⟨?_, ?_, ?_, ?_⟩
          · simp [List.all_append, plainEv, (ih _).1, all_if_singleton]
            intro x h1 h2 h3 hx
            subst hx
            rfl
          · exact (ih _).2.1
          · intro fs2 h
            rw [accumulateFragsE]
            simp only [hc0, Bool.not_true, Bool.false_eq_true, if_false, hmr]
            exact (ih _).2.2.1 fs2 h
          · intro m fsx h
            rw [accumulateFragsE]
            simp only [hc0, Bool.not_true, Bool.false_eq_true, if_false, hmr]
            exact (ih _).2.2.2 m fsx h
        · simp only [hdc, Bool.false_eq_true, if_false]
          refine ⟨?_, ?_, ?_, ?_⟩
          · simp [List.all_append, plainEv, (ih _).1, all_if_singleton]
            intro x h1 h2 h3 hx
            subst hx
            rfl
          · exact (ih _).2.1
          · intro fs2 h
            rw [accumulateFragsE]
            simp only [hc0, Bool.not_true, Bool.false_eq_true, if_false, hmr]
            exact (ih _).2.2.1 fs2 h
          · intro m fsx h
            rw [accumulateFragsE]
            simp only [hc0, Bool.not_true, Bool.false_eq_true, if_false, hmr]
            exact (ih _).2.2.2 m fsx h
    · simp only [hc0, Bool.not_false, if_true]
      refine ⟨?_, ?_, ?_, ?_⟩
      · simp [List.all_append, plainEv, (ih _).1]
      · exact (ih _).2.1
      · intro fs2 h
        rw [accumulateFragsE]
        simp only [hc0, Bool.not_false, if_true]
        exact (ih ⟨fs.accMsg, fs.accContent, fs.toolCallsYielded, fs.checks + 1,
          fs.totalOutputTokens⟩).2.2.1 fs2 h
      · intro m fsx h
        rw [accumulateFragsE]
        simp only [hc0, Bool.not_false, if_true]
        exact (ih ⟨fs.accMsg, fs.accContent, fs.toolCallsYielded, fs.checks + 1,
          fs.totalOutputTokens⟩).2.2.2 m fsx h

/-- With the flag never set, a round that aggregates into a non-empty
invocation list (so in particular aggregates cleanly) and whose stream
raises nothing continues the loop, emitting only plain events. -/
theorem runRoundE_cont (env : AgentEnv) (hna : ∀ k, env.abortAt k = false)
    (st : LoopState)
    (herr : (env.rounds st.toolRounds).err = none)
    (htc : jsLenGtZero (roundToolCallsOfE env st.toolRounds) = true) :
    ∃ evs st2, runRoundE env st = (evs, .cont st2) ∧ evs.all plainEv = true := by
  obtain ⟨hf1, hf2, hf3, hf4⟩ := processFragsE_noabort env hna st.inputTokens
    (env.rounds st.toolRounds).frags
    ⟨.vobj [], "", false, st.checks + 1, st.totalOutputTokens⟩
  rw [runRoundE]
  simp only [hna, Bool.false_eq_true, if_false]
  cases hacc : accumulateFragsE (env.rounds st.toolRounds).frags (.vobj []) with
  | error m =>
    simp [roundToolCallsOfE, hacc, jsLenGtZero] at htc
  | ok acc =>
    cases hp : (processFragsE env st.inputTokens (env.rounds st.toolRounds).frags
        ⟨.vobj [], "", false, st.checks + 1, st.totalOutputTokens⟩).2 with
    | cancelled => exact absurd hp hf2
    | thrown m fsx =>
      have hth := hf4 m fsx hp
      rw [hacc] at hth
      exact Except.noConfusion hth
    | done fs1 =>
      have hfs1 : fs1.accMsg = acc := by
        have hok := hf3 fs1 hp
        rw [hacc] at hok
        injection hok with h2
        exact h2.symm
      simp only [hp, herr]
      have htc2 : jsLenGtZero
          (if (!truthy (jsField fs1.accMsg "tool_calls") ||
              jsLenIsZero (jsField fs1.accMsg "tool_calls")) = true then
            parseToolCallsFromContent (env.genId st.toolRounds)
              (jsField fs1.accMsg "content")
          else jsField fs1.accMsg "tool_calls") = true := by
        rw [hfs1]
        simp only [roundToolCallsOfE, hacc] at htc
        exact htc
      simp only [htc2, if_true]
      have hex := execTools_noabort env hna
        (match
          (if (!truthy (jsField fs1.accMsg "tool_calls") ||
              jsLenIsZero (jsField fs1.accMsg "tool_calls")) = true then
            parseToolCallsFromContent (env.genId st.toolRounds)
              (jsField fs1.accMsg "content")
          else jsField fs1.accMsg "tool_calls") with
          | .varr l => l
          | _ => [])
        ⟨st.msgs ++ [⟨"assistant",
          (if truthy (jsField fs1.accMsg "content") = true then
            jsToStringCoerce (jsField fs1.accMsg "content") else ""),
          some (if (!truthy (jsField fs1.accMsg "tool_calls") ||
              jsLenIsZero (jsField fs1.accMsg "tool_calls")) = true then
            parseToolCallsFromContent (env.genId st.toolRounds)
              (jsField fs1.accMsg "content")
          else jsField fs1.accMsg "tool_calls"), none⟩],
          fs1.checks, st.toolExecs⟩
      cases he : (execTools env
        (match
          (if (!truthy (jsField fs1.accMsg "tool_calls") ||
              jsLenIsZero (jsField fs1.accMsg "tool_calls")) = true then
            parseToolCallsFromContent (env.genId st.toolRounds)
              (jsField fs1.accMsg "content")
          else jsField fs1.accMsg "tool_calls") with
          | .varr l => l
          | _ => [])
        ⟨st.msgs ++ [⟨"assistant",
          (if truthy (jsField fs1.accMsg "content") = true then
            jsToStringCoerce (jsField fs1.accMsg "content") else ""),
          some (if (!truthy (jsField fs1.accMsg "tool_calls") ||
              jsLenIsZero (jsField fs1.accMsg "tool_calls")) = true then
            parseToolCallsFromContent (env.genId st.toolRounds)
              (jsField fs1.accMsg "content")
          else jsField fs1.accMsg "tool_calls"), none⟩],
          fs1.checks, st.toolExecs⟩).2 with
      | none =>
        rw [he] at hex
        simp at hex
      | some es1 =>
        simp only [he]
        refine ⟨_, _, rfl, ?_⟩
        rw [List.all_append, List.all_append, List.all_append, List.all_cons]
        simp only [Bool.and_eq_true]
        refine ⟨⟨⟨⟨rfl, hf1⟩, ?_⟩, hex.1⟩, rfl⟩
        cases hty : fs1.toolCallsYielded <;> simp [hty, plainEv]

/-- With the flag never set, no transport errors, and clean invocation
aggregation every round, the exception-aware loop runs to the cap
emitting only plain events. -/
theorem runLoopE_cap (env : AgentEnv) (hna : ∀ k, env.abortAt k = false)
    (hok : ∀ r, (env.rounds r).err = none)
    (htc : ∀ r, jsLenGtZero (roundToolCallsOfE env r) = true)
    (st : LoopState) (hle : st.toolRounds ≤ 50) :
    (runLoopE env st).1.all plainEv = true ∧
    (runLoopE env st).2.1.toolRounds = 50 ∧
    (runLoopE env st).2.2 = false := by
  rw [runLoopE]
  by_cases h : st.toolRounds < 50
  · obtain ⟨evs, st2, hrr, hall⟩ := runRoundE_cont env hna st (hok _) (htc _)
    simp only [h, dif_pos, hrr]
    have ih := runLoopE_cap env hna hok htc
      ⟨st2.msgs, st.toolRounds + 1, st2.checks, st2.toolExecs,
        st2.inputTokens, st2.totalOutputTokens⟩
      (by show st.toolRounds + 1 ≤ 50; omega)
    refine ⟨?_, ih.2.1, ih.2.2⟩
    simp [List.all_append, hall, ih.1]
  · simp only [h, dif_neg, not_false_iff]
    refine ⟨?_, ?_, ?_⟩ <;> first | omega | rfl | trivial
termination_by 50 - st.toolRounds
decreasing_by show 50 - (st.toolRounds + 1) < 50 - st.toolRounds; omega

/-- C1 counterexample: in `c1BadEnv` every round's streamed response
carries a complete `bash` invocation (the unamended claim's premise), the
flag is never set and no stream raises — yet aggregating round 0 throws
the `Object.entries(null)` TypeError on the poisoned `tool_calls: [null]`
delta, so the loop stops at round 0 with the single error notice and
`done`: no limit notice, no 50-round cap. -/
theorem round_cap_c1_counterexample :
    hasCompleteTool (jsField c1Delta "tool_calls") = true ∧
    (∀ r, (c1BadEnv.rounds r).frags = [c1Frag, c1PoisonFrag] ∧
      (c1BadEnv.rounds r).err = none) ∧
    (∀ k, c1BadEnv.abortAt k = false) ∧
    (processUserMessageStreamE c1BadEnv [] "hi").1.countP isLimitNotice = 0 ∧
    (processUserMessageStreamE c1BadEnv [] "hi").2.toolRounds = 0 ∧
    (processUserMessageStreamE c1BadEnv [] "hi").1 =
      [.tokenCountEv 0, .checkedAbort false, .checkedAbort false,
       .consumedFrag, .toolCallsEv (.varr [c1Call]), .checkedAbort false,
       .consumedFrag, .checkedAbort false,
       .errorNoticeEv ("Sorry, I encountered an error: " ++ nullConvErr),
       .doneEv] := by
  have h1 : (processUserMessageStreamE c1BadEnv [] "hi").1 =
      [.tokenCountEv 0, .checkedAbort false, .checkedAbort false,
       .consumedFrag, .toolCallsEv (.varr [c1Call]), .checkedAbort false,
       .consumedFrag, .checkedAbort false,
       .errorNoticeEv ("Sorry, I encountered an error: " ++ nullConvErr),
       .doneEv] := by
    simp [processUserMessageStreamE, runLoopE, runRoundE, processFragsE,
      messageReducerE, reduceAnyE, reduceObjE, stepFieldE, mergeArrE,
      cleanIndexE, delIndexElemsE, delIndexPropE, jsField, jsIndex, jsLookup,
      jsSet, jsEntries, truthy, jsLenGtZero, jsLenIsZero, hasCompleteTool,
      compactIfNeeded, c1BadEnv, c1Frag, c1Delta, c1Call, c1PoisonFrag]
  refine ⟨?_, fun r => ⟨rfl, rfl⟩, fun k => rfl, ?_, ?_, h1⟩
  · simp [hasCompleteTool, c1Delta, c1Call, jsField, jsLookup, truthy]
  · rw [h1]
    rfl
  · simp [processUserMessageStreamE, runLoopE, runRoundE, processFragsE,
      messageReducerE, reduceAnyE, reduceObjE, stepFieldE, mergeArrE,
      cleanIndexE, delIndexElemsE, delIndexPropE, jsField, jsIndex, jsLookup,
      jsSet, jsEntries, truthy, jsLenGtZero, jsLenIsZero, hasCompleteTool,
      compactIfNeeded, c1BadEnv, c1Frag, c1Delta, c1Call, c1PoisonFrag]

/-- C1 (amended): when the flag is never set, no round's stream raises,
and every round aggregates cleanly into a response carrying tool
invocations, the loop terminates with the round counter at exactly 50 —
one increment per round, however many invocations a round carries — and
the event stream ends with exactly one limit-notice chunk followed by the
single `done` chunk.  The hypothesis over `roundToolCallsOfE` also
demands the round merge without the aggregator's TypeError; the
counterexample shows the cap is not reached without that proviso. -/
theorem round_cap_c1 (env : AgentEnv) (msgs0 : List OMsg) (message : String)
    (hna : ∀ k, env.abortAt k = false)
    (hok : ∀ r, (env.rounds r).err = none)
    (htc : ∀ r, jsLenGtZero (roundToolCallsOfE env r) = true) :
    (∃ pre, (processUserMessageStreamE env msgs0 message).1 =
      pre ++ [.limitNoticeEv, .doneEv]) ∧
    (processUserMessageStreamE env msgs0 message).1.countP isLimitNotice = 1 ∧
    (processUserMessageStreamE env msgs0 message).1.countP isDoneEv = 1 ∧
    (processUserMessageStreamE env msgs0 message).2.toolRounds = 50 := by
  have hl := runLoopE_cap env hna hok htc
    ⟨compactIfNeeded (env.countMessageTokens (msgs0 ++ [⟨"user", message, none, none⟩]))
        (msgs0 ++ [⟨"user", message, none, none⟩]), 0, 0, 0,
      (if 15000 < env.countMessageTokens (msgs0 ++ [⟨"user", message, none, none⟩]) then
        env.countMessageTokens (compactIfNeeded
          (env.countMessageTokens (msgs0 ++ [⟨"user", message, none, none⟩]))
          (msgs0 ++ [⟨"user", message, none, none⟩]))
      else env.countMessageTokens (msgs0 ++ [⟨"user", message, none, none⟩])), 0⟩
    (by show (0 : Nat) ≤ 50; omega)
  have hz := countP_limit_zero _ hl.1
  rw [processUserMessageStreamE]
  simp only [hl.2.2, Bool.false_eq_true, if_false, hl.2.1, le_refl, if_true]
  refine ⟨⟨_, List.append_assoc _ _ _⟩, ?_, ?_, by trivial⟩
  · simp [List.countP_append, List.countP_cons, hz.1, isLimitNotice, isDoneEv]
  · simp [List.countP_append, List.countP_cons, hz.2.1, isLimitNotice, isDoneEv]

/-- Witness for C1 (amended): in the concrete environment `c1Env` —
whose every round streams one cleanly-merging complete `bash` invocation
— the loop reaches the 50-round cap with exactly one limit notice and
one `done`. -/
theorem round_cap_c1_witness :
    (processUserMessageStreamE c1Env [] "hi").1.countP isLimitNotice = 1 ∧
    (processUserMessageStreamE c1Env [] "hi").1.countP isDoneEv = 1 ∧
    (processUserMessageStreamE c1Env [] "hi").2.toolRounds = 50 := by
  have h := round_cap_c1 c1Env [] "hi" (fun _ => rfl) (fun _ => rfl)
    (fun r => by
      simp [roundToolCallsOfE, accumulateFragsE, c1Env, c1Frag, c1Delta, c1Call,
        messageReducerE, reduceAnyE, reduceObjE, stepFieldE, jsEntries, jsSet,
        jsLookup, jsField, jsIndex, truthy, cleanIndexE, delIndexElemsE,
        delIndexPropE, jsLenIsZero, jsLenGtZero])
  exact ⟨h.2.1, h.2.2.1, h.2.2.2⟩

/-- With the flag never set, a round whose stream raises is caught: the
round returns right after the single error notice and `done`. -/
theorem runRound_err (env : AgentEnv) (hna : ∀ k, env.abortAt k = false)
    (st : LoopState) (e : String)
    (herr : (env.rounds st.toolRounds).err = some e) :
    ∃ evs st2, runRound env st =
      (evs ++ [.errorNoticeEv ("Sorry, I encountered an error: " ++ e), .doneEv],
        .ret st2) ∧ evs.all plainEv = true := by
  have hfr := processFrags_noabort env hna st.inputTokens
    (env.rounds st.toolRounds).frags
    ⟨.vobj [], "", false, st.checks + 1, st.totalOutputTokens⟩
  rw [runRound]
  simp only [hna, Bool.false_eq_true, if_false]
  cases hp : (processFrags env st.inputTokens (env.rounds st.toolRounds).frags
      ⟨.vobj [], "", false, st.checks + 1, st.totalOutputTokens⟩).2 with
  | none =>
    rw [hp] at hfr
    simp at hfr
  | some fs1 =>
    simp only [hp, herr, hna, Bool.false_eq_true, if_false]
    refine ⟨(AgentEvent.checkedAbort false :: (processFrags env st.inputTokens
        (env.rounds st.toolRounds).frags
        ⟨.vobj [], "", false, st.checks + 1, st.totalOutputTokens⟩).1) ++
        [AgentEvent.checkedAbort false],
      ⟨st.msgs, st.toolRounds, fs1.checks + 1, st.toolExecs, st.inputTokens,
        fs1.totalOutputTokens⟩, ?_, ?_⟩
    · rw [List.append_assoc]
      rfl
    · rw [List.all_append, List.all_cons]
      simp only [Bool.and_eq_true]
      exact ⟨⟨rfl, hfr.1⟩, rfl⟩

/-- With the flag never set, clean invocation-yielding rounds before round
`r`, and a stream that raises at round `r < 50`, the loop ends in the
single error notice and `done` after plain events only, the generator
returning early. -/
theorem runLoop_err (env : AgentEnv) (hna : ∀ k, env.abortAt k = false)
    (r : Nat) (e : String) (herr : (env.rounds r).err = some e)
    (hok : ∀ k, k < r → (env.rounds k).err = none)
    (htc : ∀ k, k < r → jsLenGtZero (roundToolCallsOf env k) = true)
    (st : LoopState) (hle : st.toolRounds ≤ r) (hr : r < 50) :
    ∃ pre, (runLoop env st).1 =
      pre ++ [.errorNoticeEv ("Sorry, I encountered an error: " ++ e), .doneEv] ∧
      pre.all plainEv = true ∧ (runLoop env st).2.2 = true := by
  rw [runLoop]
  have h50 : st.toolRounds < 50 := lt_of_le_of_lt hle hr
  by_cases heq : st.toolRounds = r
  · obtain ⟨evs, st2, hrr, hall⟩ := runRound_err env hna st e (by rw [heq]; exact herr)
    simp only [h50, dif_pos, hrr]
    exact ⟨evs, rfl, hall, by trivial⟩
  · have hlt : st.toolRounds < r := lt_of_le_of_ne hle heq
    obtain ⟨evs, st2, hrr, hall⟩ := runRound_cont env hna st (hok _ hlt) (htc _ hlt)
    simp only [h50, dif_pos, hrr]
    obtain ⟨pre, hpre, hpall, hflag⟩ := runLoop_err env hna r e herr hok htc
      ⟨st2.msgs, st.toolRounds + 1, st2.checks, st2.toolExecs,
        st2.inputTokens, st2.totalOutputTokens⟩
      (by show st.toolRounds + 1 ≤ r; omega) hr
    refine ⟨evs ++ pre, ?_, ?_, hflag⟩
    · show evs ++ (runLoop env _).1 = _
      rw [hpre, List.append_assoc]
    · rw [List.all_append, Bool.and_eq_true]
      exact ⟨hall, hpall⟩
termination_by r - st.toolRounds
decreasing_by show r - (st.toolRounds + 1) < r - st.toolRounds; omega

/-- C6: when the stream of some round `r` raises (with invocation-yielding
clean rounds before it and no cancellation), the generator catches the
exception and the whole event stream ends with exactly one error notice
chunk reading `Sorry, I encountered an error: ...` followed by the single
`done` chunk; the exception never escapes `processUserMessageStream`. -/
theorem error_notice_c6 (env : AgentEnv) (msgs0 : List OMsg) (message : String)
    (r : Nat) (e : String)
    (hna : ∀ k, env.abortAt k = false)
    (herr : (env.rounds r).err = some e)
    (hok : ∀ k, k < r → (env.rounds k).err = none)
    (htc : ∀ k, k < r → jsLenGtZero (roundToolCallsOf env k) = true)
    (hr : r < 50) :
    (∃ pre, (processUserMessageStream env msgs0 message).1 =
      pre ++ [.errorNoticeEv ("Sorry, I encountered an error: " ++ e),
        .doneEv]) ∧
    (processUserMessageStream env msgs0 message).1.countP isErrorNotice = 1 ∧
    (processUserMessageStream env msgs0 message).1.countP isDoneEv = 1 := by
  obtain ⟨pre, hpre, hpall, hflag⟩ := runLoop_err env hna r e herr hok htc
    ⟨compactIfNeeded (env.countMessageTokens (msgs0 ++ [⟨"user", message, none, none⟩]))
        (msgs0 ++ [⟨"user", message, none, none⟩]), 0, 0, 0,
      (if 15000 < env.countMessageTokens (msgs0 ++ [⟨"user", message, none, none⟩]) then
        env.countMessageTokens (compactIfNeeded
          (env.countMessageTokens (msgs0 ++ [⟨"user", message, none, none⟩]))
          (msgs0 ++ [⟨"user", message, none, none⟩]))
      else env.countMessageTokens (msgs0 ++ [⟨"user", message, none, none⟩])), 0⟩
    (by show (0 : Nat) ≤ r; omega) hr
  have hz := countP_limit_zero pre hpall
  rw [processUserMessageStream]
  simp only [hflag, if_true, hpre]
  refine ⟨⟨_ :: pre, (List.cons_append _ _ _).symm⟩, ?_, ?_⟩
  · simp [List.countP_cons, List.countP_append, hz.2.2, isErrorNotice, isDoneEv]
  · simp [List.countP_cons, List.countP_append, hz.2.1, isErrorNotice, isDoneEv]

/-- Witness for C6: in `c6Env` the stream ends with the single error
notice for `boom` and `done`. -/
theorem error_notice_c6_witness :
    (∃ pre, (processUserMessageStream c6Env [] "hi").1 =
      pre ++ [.errorNoticeEv ("Sorry, I encountered an error: " ++ "boom"),
        .doneEv]) ∧
    (processUserMessageStream c6Env [] "hi").1.countP isErrorNotice = 1 ∧
    (processUserMessageStream c6Env [] "hi").1.countP isDoneEv = 1 :=
  error_notice_c6 c6Env [] "hi" 0 "boom" (fun _ => rfl) rfl
    (fun k hk => absurd hk (Nat.not_lt_zero k))
    (fun k hk => absurd hk (Nat.not_lt_zero k))
    (by omega)

theorem noStrayFrom_mono : ∀ (b : List AgentEvent) (p : Bool),
    noStrayFrom false b = true → noStrayFrom p b = true := by
  intro b
  induction b with
  | nil => intro p _; rfl
  | cons x rest ih =>
    intro p h
    rw [noStrayFrom] at h ⊢
    by_cases hx : needsCheck x = true
    · rw [if_pos hx] at h
      rw [Bool.false_and] at h
      exact absurd h (by simp)
    · rw [if_neg hx] at h ⊢
      exact h

theorem noStrayFrom_append : ∀ (a : List AgentEvent) (p : Bool)
    (b : List AgentEvent), noStrayFrom p a = true →
    noStrayFrom false b = true → noStrayFrom p (a ++ b) = true := by
  intro a
  induction a with
  | nil => intro p b _ hb; exact noStrayFrom_mono b p hb
  | cons x rest ih =>
    intro p b ha hb
    rw [List.cons_append, noStrayFrom]
    rw [noStrayFrom] at ha
    by_cases hx : needsCheck x = true
    · rw [if_pos hx] at ha ⊢
      rw [Bool.and_eq_true] at ha ⊢
      exact ⟨ha.1, ih false b ha.2 hb⟩
    · rw [if_neg hx] at ha ⊢
      exact ih _ b ha hb

theorem notAbortTrue_not_isAbortTrue (x : AgentEvent)
    (h : notAbortTrue x = true) : isAbortTrue x = false := by
  cases x with
  | checkedAbort b => cases b <;> simp_all [notAbortTrue, isAbortTrue]
  | _ => rfl

theorem cancelImmediate_of_noAbortTrue : ∀ l : List AgentEvent,
    noAbortTrue l = true → cancelImmediate l = true := by
  intro l
  induction l with
  | nil => intro _; rfl
  | cons x rest ih =>
    intro h
    rw [noAbortTrue, List.all_cons, Bool.and_eq_true] at h
    rw [cancelImmediate, if_neg]
    · exact ih h.2
    · rw [notAbortTrue_not_isAbortTrue x h.1]
      simp

theorem cancelImmediate_pre_triple : ∀ pre : List AgentEvent,
    noAbortTrue pre = true → cancelImmediate (pre ++ cancelTriple) = true := by
  intro pre
  induction pre with
  | nil => intro _; rfl
  | cons x rest ih =>
    intro h
    rw [noAbortTrue, List.all_cons, Bool.and_eq_true] at h
    rw [List.cons_append, cancelImmediate, if_neg]
    · exact ih h.2
    · rw [notAbortTrue_not_isAbortTrue x h.1]
      simp

/-- Under an arbitrary abort schedule, the fragment loop checks the flag
before every consumption, observes no set flag when it completes, and on
observing a set flag ends in exactly the cancellation triple. -/
theorem processFrags_c8 (env : AgentEnv) (it : Nat) :
    ∀ (frags : List JVal) (fs : FragState),
    noStrayFrom false (processFrags env it frags fs).1 = true ∧
    (∀ fs2, (processFrags env it frags fs).2 = some fs2 →
      noAbortTrue (processFrags env it frags fs).1 = true) ∧
    ((processFrags env it frags fs).2 = none →
      ∃ pre, (processFrags env it frags fs).1 = pre ++ cancelTriple ∧
        noAbortTrue pre = true) := by
  intro frags
  induction frags with
  | nil =>
    intro fs
    exact ⟨rfl, fun _ _ => rfl, fun h => absurd h (by simp [processFrags])⟩
  | cons chunk rest ih =>
    intro fs
    rw [processFrags]
    by_cases hob : env.abortAt fs.checks = true
    · simp only [hob, if_true]
      exact ⟨rfl, fun fs2 h => absurd h (by simp),
        fun _ => ⟨[], rfl, rfl⟩⟩
    · rw [Bool.not_eq_true] at hob
      simp only [hob, Bool.false_eq_true, if_false]
      by_cases hc0 : truthy (jsIndex (jsField chunk "choices") 0) = true
      · simp only [hc0, Bool.not_true, Bool.false_eq_true, if_false]
        by_cases hdc : truthy (jsField (jsField (jsIndex (jsField chunk "choices") 0) "delta") "content") = true
        · simp only [hdc, if_true]
          obtain ⟨ihn, ihs, ihc⟩ := ih
            ⟨messageReducer fs.accMsg chunk,
              fs.accContent ++ jsToStringCoerce (jsField (jsField (jsIndex (jsField chunk "choices") 0) "delta") "content"),
              fs.toolCallsYielded ||
                (!fs.toolCallsYielded &&
                  jsLenGtZero (jsField (messageReducer fs.accMsg chunk) "tool_calls") &&
                  hasCompleteTool (jsField (messageReducer fs.accMsg chunk) "tool_calls")),
              fs.checks + 1,
              env.estimateStreamingTokens (fs.accContent ++ jsToStringCoerce (jsField (jsField (jsIndex (jsField chunk "choices") 0) "delta") "content")) +
                (if truthy (jsField (messageReducer fs.accMsg chunk) "tool_calls") = true then
                  env.countTokens (jsonStringify (jsField (messageReducer fs.accMsg chunk) "tool_calls")) else 0)⟩
          refine ⟨?_, ?_, ?_⟩
          · apply noStrayFrom_append _ _ _ _ ihn
            cases hdy : (!fs.toolCallsYielded &&
                jsLenGtZero (jsField (messageReducer fs.accMsg chunk) "tool_calls") &&
                hasCompleteTool (jsField (messageReducer fs.accMsg chunk) "tool_calls")) <;>
              simp [hdy, noStrayFrom, needsCheck, isCheckOk]
          · intro fs2 h
            rw [noAbortTrue, List.all_append, Bool.and_eq_true]
            refine ⟨?_, ihs fs2 h⟩
            cases hdy : (!fs.toolCallsYielded &&
                jsLenGtZero (jsField (messageReducer fs.accMsg chunk) "tool_calls") &&
                hasCompleteTool (jsField (messageReducer fs.accMsg chunk) "tool_calls")) <;>
              simp [hdy, notAbortTrue]
          · intro h
            obtain ⟨pre0, hp0, hn0⟩ := ihc h
            rw [hp0, ← List.append_assoc]
            refine ⟨_, rfl, ?_⟩
            rw [noAbortTrue, List.all_append, Bool.and_eq_true]
            refine ⟨?_, hn0⟩
            cases hdy : (!fs.toolCallsYielded &&
                jsLenGtZero (jsField (messageReducer fs.accMsg chunk) "tool_calls") &&
                hasCompleteTool (jsField (messageReducer fs.accMsg chunk) "tool_calls")) <;>
              simp [hdy, notAbortTrue]
        · simp only [hdc, Bool.false_eq_true, if_false]
          obtain ⟨ihn, ihs, ihc⟩ := ih
            ⟨messageReducer fs.accMsg chunk, fs.accContent,
              fs.toolCallsYielded ||
                (!fs.toolCallsYielded &&
                  jsLenGtZero (jsField (messageReducer fs.accMsg chunk) "tool_calls") &&
                  hasCompleteTool (jsField (messageReducer fs.accMsg chunk) "tool_calls")),
              fs.checks + 1, fs.totalOutputTokens⟩
          refine ⟨?_, ?_, ?_⟩
          · apply noStrayFrom_append _ _ _ _ ihn
            cases hdy : (!fs.toolCallsYielded &&
                jsLenGtZero (jsField (messageReducer fs.accMsg chunk) "tool_calls") &&
                hasCompleteTool (jsField (messageReducer fs.accMsg chunk) "tool_calls")) <;>
              simp [hdy, noStrayFrom, needsCheck, isCheckOk]
          · intro fs2 h
            rw [noAbortTrue, List.all_append, Bool.and_eq_true]
            refine ⟨?_, ihs fs2 h⟩
            cases hdy : (!fs.toolCallsYielded &&
                jsLenGtZero (jsField (messageReducer fs.accMsg chunk) "tool_calls") &&
                hasCompleteTool (jsField (messageReducer fs.accMsg chunk) "tool_calls")) <;>
              simp [hdy, notAbortTrue]
          · intro h
            obtain ⟨pre0, hp0, hn0⟩ := ihc h
            rw [hp0, ← List.append_assoc]
            refine ⟨_, rfl, ?_⟩
            rw [noAbortTrue, List.all_append, Bool.and_eq_true]
            refine ⟨?_, hn0⟩
            cases hdy : (!fs.toolCallsYielded &&
                jsLenGtZero (jsField (messageReducer fs.accMsg chunk) "tool_calls") &&
                hasCompleteTool (jsField (messageReducer fs.accMsg chunk) "tool_calls")) <;>
              simp [hdy, notAbortTrue]
      · simp only [hc0, Bool.not_false, if_true]
        obtain ⟨ihn, ihs, ihc⟩ := ih
          ⟨fs.accMsg, fs.accContent, fs.toolCallsYielded, fs.checks + 1,
            fs.totalOutputTokens⟩
        refine ⟨?_, ?_, ?_⟩
        · exact noStrayFrom_append _ _ _ (by rfl) ihn
        · intro fs2 h
          rw [noAbortTrue, List.all_append, Bool.and_eq_true]
          exact ⟨rfl, ihs fs2 h⟩
        · intro h
          obtain ⟨pre0, hp0, hn0⟩ := ihc h
          rw [hp0, ← List.append_assoc]
          refine ⟨_, rfl, ?_⟩
          rw [noAbortTrue, List.all_append, Bool.and_eq_true]
          exact ⟨rfl, hn0⟩

/-- Under an arbitrary abort schedule, the tool loop checks the flag
before every dispatch, observes no set flag when it completes, and on
observing a set flag ends in exactly the cancellation triple. -/
theorem execTools_c8 (env : AgentEnv) :
    ∀ (tcs : List JVal) (es : ExecState),
    noStrayFrom false (execTools env tcs es).1 = true ∧
    (∀ es2, (execTools env tcs es).2 = some es2 →
      noAbortTrue (execTools env tcs es).1 = true) ∧
    ((execTools env tcs es).2 = none →
      ∃ pre, (execTools env tcs es).1 = pre ++ cancelTriple ∧
        noAbortTrue pre = true) := by
  intro tcs
  induction tcs with
  | nil =>
    intro es
    exact ⟨rfl, fun _ _ => rfl, fun h => absurd h (by simp [execTools])⟩
  | cons tc rest ih =>
    intro es
    rw [execTools]
    by_cases hob : env.abortAt es.checks = true
    · simp only [hob, if_true]
      exact ⟨rfl, fun es2 h => absurd h (by simp),
        fun _ => ⟨[], rfl, rfl⟩⟩
    · rw [Bool.not_eq_true] at hob
      simp only [hob, Bool.false_eq_true, if_false]
      obtain ⟨ihn, ihs, ihc⟩ := ih
        ⟨es.msgs ++ [⟨"tool",
          (if (env.execToolO es.toolExecs tc).success = true then
            match (env.execToolO es.toolExecs tc).output with
            | some o => if o = "" then "Success" else o
            | none => "Success"
          else
            match (env.execToolO es.toolExecs tc).error with
            | some e => if e = "" then "Error" else e
            | none => "Error"), none, some (jsField tc "id")⟩],
          es.checks + 1, es.toolExecs + 1⟩
      refine ⟨?_, ?_, ?_⟩
      · exact noStrayFrom_append _ _ _ (by rfl) ihn
      · intro es2 h
        rw [noAbortTrue, List.all_append, Bool.and_eq_true]
        exact ⟨rfl, ihs es2 h⟩
      · intro h
        obtain ⟨pre0, hp0, hn0⟩ := ihc h
        rw [hp0, ← List.append_assoc]
        refine ⟨_, rfl, ?_⟩
        rw [noAbortTrue, List.all_append, Bool.and_eq_true]
        exact ⟨rfl, hn0⟩

/-- Prepending a clear-flag checkpoint preserves the guardedness
invariant (and establishes it for an immediately following consumption). -/
theorem noStrayFrom_cons_cf (l : List AgentEvent) (p : Bool)
    (h : noStrayFrom false l = true) :
    noStrayFrom p (AgentEvent.checkedAbort false :: l) = true :=
  noStrayFrom_mono l true h

/-- Under an arbitrary abort schedule, one round body checks the flag
before every consumption and dispatch, and either observes no set flag or
returns right after the cancellation triple. -/
theorem runRound_c8 (env : AgentEnv) (st : LoopState) :
    noStrayFrom false (runRound env st).1 = true ∧
    (noAbortTrue (runRound env st).1 = true ∨
      (∃ pre st2, (runRound env st).1 = pre ++ cancelTriple ∧
        noAbortTrue pre = true ∧ (runRound env st).2 = .ret st2)) := by
  rw [runRound]
  by_cases hob : env.abortAt st.checks = true
  · simp only [hob, if_true]
    exact ⟨rfl, .inr ⟨[], _, rfl, rfl, rfl⟩⟩
  · rw [Bool.not_eq_true] at hob
    simp only [hob, Bool.false_eq_true, if_false]
    obtain ⟨hfn, hfs, hfc⟩ := processFrags_c8 env st.inputTokens
      (env.rounds st.toolRounds).frags
      ⟨.vobj [], "", false, st.checks + 1, st.totalOutputTokens⟩
    cases hp : (processFrags env st.inputTokens (env.rounds st.toolRounds).frags
        ⟨.vobj [], "", false, st.checks + 1, st.totalOutputTokens⟩).2 with
    | none =>
      obtain ⟨pre0, hp0, hn0⟩ := hfc hp
      simp only [hp]
      constructor
      · exact noStrayFrom_cons_cf _ _ hfn
      · refine .inr ⟨AgentEvent.checkedAbort false :: pre0, _, ?_, ?_, rfl⟩
        · rw [hp0, List.cons_append]
        · rw [noAbortTrue, List.all_cons, Bool.and_eq_true]
          exact ⟨rfl, hn0⟩
    | some fs1 =>
      have hfa : noAbortTrue (processFrags env st.inputTokens
          (env.rounds st.toolRounds).frags
          ⟨.vobj [], "", false, st.checks + 1, st.totalOutputTokens⟩).1 = true :=
        hfs fs1 hp
      simp only [hp]
      cases herr : (env.rounds st.toolRounds).err with
      | some e =>
        by_cases hob2 : env.abortAt fs1.checks = true
        · simp only [hob2, if_true]
          constructor
          · exact noStrayFrom_append _ _ _ (noStrayFrom_cons_cf _ _ hfn) (by rfl)
          · refine .inr ⟨AgentEvent.checkedAbort false :: (processFrags env
              st.inputTokens (env.rounds st.toolRounds).frags
              ⟨.vobj [], "", false, st.checks + 1, st.totalOutputTokens⟩).1,
              _, rfl, ?_, rfl⟩
            rw [noAbortTrue, List.all_cons, Bool.and_eq_true]
            exact ⟨rfl, hfa⟩
        · rw [Bool.not_eq_true] at hob2
          simp only [hob2, Bool.false_eq_true, if_false]
          constructor
          · exact noStrayFrom_append _ _ _ (noStrayFrom_cons_cf _ _ hfn) (by rfl)
          · refine .inl ?_
            rw [noAbortTrue, List.all_append, Bool.and_eq_true]
            refine ⟨?_, rfl⟩
            rw [List.all_cons, Bool.and_eq_true]
            exact ⟨rfl, hfa⟩
      | none =>
        by_cases htc : jsLenGtZero
            (if (!truthy (jsField fs1.accMsg "tool_calls") ||
                jsLenIsZero (jsField fs1.accMsg "tool_calls")) = true then
              parseToolCallsFromContent (env.genId st.toolRounds)
                (jsField fs1.accMsg "content")
            else jsField fs1.accMsg "tool_calls") = true
        · simp only [htc, if_true]
          obtain ⟨hen, hes, hec⟩ := execTools_c8 env
            (match
              (if (!truthy (jsField fs1.accMsg "tool_calls") ||
                  jsLenIsZero (jsField fs1.accMsg "tool_calls")) = true then
                parseToolCallsFromContent (env.genId st.toolRounds)
                  (jsField fs1.accMsg "content")
              else jsField fs1.accMsg "tool_calls") with
              | .varr l => l
              | _ => [])
            ⟨st.msgs ++ [⟨"assistant",
              (if truthy (jsField fs1.accMsg "content") = true then
                jsToStringCoerce (jsField fs1.accMsg "content") else ""),
              some (if (!truthy (jsField fs1.accMsg "tool_calls") ||
                  jsLenIsZero (jsField fs1.accMsg "tool_calls")) = true then
                parseToolCallsFromContent (env.genId st.toolRounds)
                  (jsField fs1.accMsg "content")
              else jsField fs1.accMsg "tool_calls"), none⟩],
              fs1.checks, st.toolExecs⟩
          have hyn : noStrayFrom false
              (if fs1.toolCallsYielded = true then []
               else [AgentEvent.toolCallsEv
                (if (!truthy (jsField fs1.accMsg "tool_calls") ||
                    jsLenIsZero (jsField fs1.accMsg "tool_calls")) = true then
                  parseToolCallsFromContent (env.genId st.toolRounds)
                    (jsField fs1.accMsg "content")
                else jsField fs1.accMsg "tool_calls")]) = true := by
            cases hty : fs1.toolCallsYielded <;>
              simp [hty, noStrayFrom, needsCheck, isCheckOk]
          have hya : noAbortTrue
              (if fs1.toolCallsYielded = true then []
               else [AgentEvent.toolCallsEv
                (if (!truthy (jsField fs1.accMsg "tool_calls") ||
                    jsLenIsZero (jsField fs1.accMsg "tool_calls")) = true then
                  parseToolCallsFromContent (env.genId st.toolRounds)
                    (jsField fs1.accMsg "content")
                else jsField fs1.accMsg "tool_calls")]) = true := by
            cases hty : fs1.toolCallsYielded <;>
              simp [hty, noAbortTrue, notAbortTrue]
          cases he : (execTools env
            (match
              (if (!truthy (jsField fs1.accMsg "tool_calls") ||
                  jsLenIsZero (jsField fs1.accMsg "tool_calls")) = true then
                parseToolCallsFromContent (env.genId st.toolRounds)
                  (jsField fs1.accMsg "content")
              else jsField fs1.accMsg "tool_calls") with
              | .varr l => l
              | _ => [])
            ⟨st.msgs ++ [⟨"assistant",
              (if truthy (jsField fs1.accMsg "content") = true then
                jsToStringCoerce (jsField fs1.accMsg "content") else ""),
              some (if (!truthy (jsField fs1.accMsg "tool_calls") ||
                  jsLenIsZero (jsField fs1.accMsg "tool_calls")) = true then
                parseToolCallsFromContent (env.genId st.toolRounds)
                  (jsField fs1.accMsg "content")
              else jsField fs1.accMsg "tool_calls"), none⟩],
              fs1.checks, st.toolExecs⟩).2 with
          | none =>
            obtain ⟨pre0, hp0, hn0⟩ := hec he
            simp only [he, hp0]
            constructor
            · apply noStrayFrom_append _ _ _ ?_ (hp0 ▸ hen)
              exact noStrayFrom_append _ _ _ (noStrayFrom_cons_cf _ _ hfn) hyn
            · refine .inr ?_
              rw [← List.append_assoc]
              refine ⟨_, _, rfl, ?_, rfl⟩
              rw [noAbortTrue, List.all_append, List.all_append,
                Bool.and_eq_true, Bool.and_eq_true]
              refine ⟨⟨?_, hya⟩, hn0⟩
              rw [List.all_cons, Bool.and_eq_true]
              exact ⟨rfl, hfa⟩
          | some es1 =>
            have hea := hes es1 he
            simp only [he]
            constructor
            · apply noStrayFrom_append _ _ _ ?_ (by rfl)
              apply noStrayFrom_append _ _ _ ?_ hen
              exact noStrayFrom_append _ _ _ (noStrayFrom_cons_cf _ _ hfn) hyn
            · refine .inl ?_
              rw [noAbortTrue, List.all_append, List.all_append,
                List.all_append, Bool.and_eq_true, Bool.and_eq_true,
                Bool.and_eq_true]
              refine ⟨⟨⟨?_, hya⟩, hea⟩, rfl⟩
              rw [List.all_cons, Bool.and_eq_true]
              exact ⟨rfl, hfa⟩
        · simp only [htc, Bool.false_eq_true, if_false]
          constructor
          · exact noStrayFrom_cons_cf _ _ hfn
          · refine .inl ?_
            rw [noAbortTrue, List.all_cons, Bool.and_eq_true]
            exact ⟨rfl, hfa⟩

/-- Under an arbitrary abort schedule, the whole round loop keeps every
consumption and dispatch guarded, and either observes no set flag or ends
in the cancellation triple with the generator returning early. -/
theorem runLoop_c8 (env : AgentEnv) (st : LoopState) :
    noStrayFrom false (runLoop env st).1 = true ∧
    (noAbortTrue (runLoop env st).1 = true ∨
      (∃ pre, (runLoop env st).1 = pre ++ cancelTriple ∧
        noAbortTrue pre = true ∧ (runLoop env st).2.2 = true)) := by
  rw [runLoop]
  by_cases h : st.toolRounds < 50
  · obtain ⟨hrn, hrd⟩ := runRound_c8 env st
    cases hrr : runRound env st with
    | mk evs ctl =>
      rw [hrr] at hrn hrd
      cases ctl with
      | ret st2 =>
        simp only [h, dif_pos, hrr]
        refine ⟨hrn, ?_⟩
        rcases hrd with hna | ⟨pre, st3, hpe, hpn, _⟩
        · exact .inl hna
        · exact .inr ⟨pre, hpe, hpn, by trivial⟩
      | brk st2 =>
        simp only [h, dif_pos, hrr]
        refine ⟨hrn, ?_⟩
        rcases hrd with hna | ⟨pre, st3, _, _, hctl⟩
        · exact .inl hna
        · exact absurd hctl (by simp)
      | cont st2 =>
        simp only [h, dif_pos, hrr]
        obtain ⟨hln, hld⟩ := runLoop_c8 env
          ⟨st2.msgs, st.toolRounds + 1, st2.checks, st2.toolExecs,
            st2.inputTokens, st2.totalOutputTokens⟩
        rcases hrd with hna | ⟨pre, st3, _, _, hctl⟩
        · refine ⟨noStrayFrom_append _ _ _ hrn hln, ?_⟩
          rcases hld with hlna | ⟨pre, hpe, hpn, hfl⟩
          · refine .inl ?_
            rw [noAbortTrue, List.all_append, Bool.and_eq_true]
            exact ⟨hna, hlna⟩
          · refine .inr ⟨evs ++ pre, ?_, ?_, hfl⟩
            · show evs ++ (runLoop env _).1 = _
              rw [hpe, List.append_assoc]
            · rw [noAbortTrue, List.all_append, Bool.and_eq_true]
              exact ⟨hna, hpn⟩
        · exact absurd hctl (by simp)
  · simp only [h, dif_neg, not_false_iff]
    exact ⟨rfl, .inl rfl⟩
termination_by 50 - st.toolRounds
decreasing_by show 50 - (st.toolRounds + 1) < 50 - st.toolRounds; omega

/-- The optional limit notice carries no abort observation and needs no
guard. -/
theorem noAbortTrue_limit_opt (c : Prop) [Decidable c] :
    noAbortTrue (if c then [AgentEvent.limitNoticeEv] else []) = true := by
  split <;> rfl

theorem noStray_limit_opt (c : Prop) [Decidable c] :
    noStrayFrom false (if c then [AgentEvent.limitNoticeEv] else []) = true := by
  split <;> rfl

/-- C8: under every abort schedule, the instrumented event stream of
`processUserMessageStream` checks the cancellation flag immediately before
every fragment consumption and every tool execution (`noStray`), and
whenever a checkpoint observes the flag set the remaining stream is
exactly the cancellation notice followed by the single `done`
(`cancelImmediate`) — nothing further is consumed or executed. -/
theorem cancellation_c8 (env : AgentEnv) (msgs0 : List OMsg)
    (message : String) :
    cancelImmediate (processUserMessageStream env msgs0 message).1 = true ∧
    noStray (processUserMessageStream env msgs0 message).1 = true := by
  obtain ⟨hln, hld⟩ := runLoop_c8 env
    ⟨compactIfNeeded (env.countMessageTokens (msgs0 ++ [⟨"user", message, none, none⟩]))
        (msgs0 ++ [⟨"user", message, none, none⟩]), 0, 0, 0,
      (if 15000 < env.countMessageTokens (msgs0 ++ [⟨"user", message, none, none⟩]) then
        env.countMessageTokens (compactIfNeeded
          (env.countMessageTokens (msgs0 ++ [⟨"user", message, none, none⟩]))
          (msgs0 ++ [⟨"user", message, none, none⟩]))
      else env.countMessageTokens (msgs0 ++ [⟨"user", message, none, none⟩])), 0⟩
  rw [processUserMessageStream]
  by_cases hfl : (runLoop env
    ⟨compactIfNeeded (env.countMessageTokens (msgs0 ++ [⟨"user", message, none, none⟩]))
        (msgs0 ++ [⟨"user", message, none, none⟩]), 0, 0, 0,
      (if 15000 < env.countMessageTokens (msgs0 ++ [⟨"user", message, none, none⟩]) then
        env.countMessageTokens (compactIfNeeded
          (env.countMessageTokens (msgs0 ++ [⟨"user", message, none, none⟩]))
          (msgs0 ++ [⟨"user", message, none, none⟩]))
      else env.countMessageTokens (msgs0 ++ [⟨"user", message, none, none⟩])), 0⟩).2.2 = true
  · simp only [hfl, if_true]
    constructor
    · rcases hld with hna | ⟨pre, hpe, hpn, _⟩
      · apply cancelImmediate_of_noAbortTrue
        rw [noAbortTrue, List.all_cons, Bool.and_eq_true]
        exact ⟨rfl, hna⟩
      · rw [hpe, ← List.cons_append]
        apply cancelImmediate_pre_triple
        rw [noAbortTrue, List.all_cons, Bool.and_eq_true]
        exact ⟨rfl, hpn⟩
    · exact hln
  · rw [Bool.not_eq_true] at hfl
    simp only [hfl, Bool.false_eq_true, if_false]
    have hna : noAbortTrue (runLoop env
      ⟨compactIfNeeded (env.countMessageTokens (msgs0 ++ [⟨"user", message, none, none⟩]))
          (msgs0 ++ [⟨"user", message, none, none⟩]), 0, 0, 0,
        (if 15000 < env.countMessageTokens (msgs0 ++ [⟨"user", message, none, none⟩]) then
          env.countMessageTokens (compactIfNeeded
            (env.countMessageTokens (msgs0 ++ [⟨"user", message, none, none⟩]))
            (msgs0 ++ [⟨"user", message, none, none⟩]))
        else env.countMessageTokens (msgs0 ++ [⟨"user", message, none, none⟩])), 0⟩).1 = true := by
      rcases hld with hna | ⟨pre, _, _, hf⟩
      · exact hna
      · rw [hfl] at hf
        exact absurd hf (by simp)
    constructor
    · apply cancelImmediate_of_noAbortTrue
      rw [noAbortTrue, List.all_append, Bool.and_eq_true]
      refine ⟨?_, rfl⟩
      rw [List.all_append, Bool.and_eq_true]
      refine ⟨?_, ?_⟩
      · rw [List.all_cons, Bool.and_eq_true]
        exact ⟨rfl, hna⟩
      · exact noAbortTrue_limit_opt _
    · show noStrayFrom false _ = true
      apply noStrayFrom_append _ _ _ ?_ (by rfl)
      apply noStrayFrom_append _ _ _ ?_ ?_
      · exact hln
      · exact noStray_limit_opt _

end OllamaAgent
